import Mathlib

/-!
Verification of the text-repair engine of `chat_server_demo`
(`helper_functionality/code_fences.py` and `helper_functionality/latex.py`)
against its natural-language specification.

The Python sources are shallowly embedded: text is `List Char`, regular
expressions are translated into the equivalent deterministic scanners
(each translation is justified next to the definition), loops become
fuel-based structural recursion (the fuel is always chosen large enough,
and the fuel-exhaustion branch returns `none`, so totality statements are
genuine termination results), and Python operations that can raise
(list indexing, dictionary lookup) are modelled with `Option`.

Character classes follow the ASCII semantics of the patterns involved
(`\s`, `\w`, `\d` restricted to ASCII, which is the range exercised by
this code base).
-/

set_option maxRecDepth 20000

/-- ASCII model of Python's `\s` / `str.strip` whitespace class. -/
def pyWs (c : Char) : Bool :=
  c = ' ' || c = '\t' || c = '\n' || c = '\r' || c = '\x0b' || c = '\x0c'

/-- ASCII model of Python's `\d`. -/
def pyDigit (c : Char) : Bool :=
  '0' ≤ c && c ≤ '9'

/-- ASCII model of Python's `\w` (word character). -/
def pyWord (c : Char) : Bool :=
  ('A' ≤ c && c ≤ 'Z') || ('a' ≤ c && c ≤ 'z') || pyDigit c || c = '_'

/-- Model of Python's `str.strip()` (ASCII whitespace). -/
def pyStrip (l : List Char) : List Char :=
  ((l.dropWhile pyWs).reverse.dropWhile pyWs).reverse

/-- Model of Python's `str.lower()` (ASCII). -/
def pyLower (l : List Char) : List Char :=
  l.map Char.toLower

/-- The backtick character, `\x60`. -/
def btick : Char := '\x60'

/-- Model of Python's `str.splitlines()`: split on `\n`, `\r\n`, `\r`,
and the remaining recognized line terminators `\x0b`, `\x0c`,
`\x1c`–`\x1e`, `\x85`, ` `, ` `; a trailing terminator does not
produce a final empty line. -/
def isLineBreak (c : Char) : Bool :=
  c = '\n' || c = '\r' || c = '\x0b' || c = '\x0c' ||
  c = '\x1c' || c = '\x1d' || c = '\x1e' || c = '\x85' ||
  c = ' ' || c = ' '

def splitlinesAux : List Char → List Char → List (List Char)
  | [], acc => if acc = [] then [] else [acc.reverse]
  | '\r' :: '\n' :: rest, acc => acc.reverse :: splitlinesAux rest []
  | c :: rest, acc =>
      if isLineBreak c then acc.reverse :: splitlinesAux rest []
      else splitlinesAux rest (c :: acc)

def splitlines (s : List Char) : List (List Char) :=
  splitlinesAux s []

/-- `"\n".join` on lines. -/
def joinNl (lines : List (List Char)) : List Char :=
  match lines with
  | [] => []
  | l :: rest => l ++ (rest.map (fun x => '\n' :: x)).flatten

/-- Decimal digits of a natural number as characters (fuel-based). -/
def natDigitsAux : Nat → Nat → List Char → List Char
  | 0, _, acc => acc
  | f + 1, n, acc =>
      if n < 10 then Char.ofNat (48 + n) :: acc
      else natDigitsAux f (n / 10) (Char.ofNat (48 + n % 10) :: acc)

/-- Decimal representation of a natural number, as in Python's f-string
formatting of an `int`. -/
def natChars (n : Nat) : List Char :=
  natDigitsAux (n + 1) n []

/- ### code_fences.py : fence-line regexes

`OPEN_FENCE_RE  = ^\s*([`~]{3,})\s*([A-Za-z0-9.+#_\-]*)\s*$`
`CLOSE_FENCE_RE = ^\s*([`~]{3,})\s*$`

Both patterns are anchored and deterministic: the fence run is the maximal
run of backtick/tilde characters after the leading whitespace (neither
`\s` nor the info-string class can consume a fence character, so no
backtracking into the run can succeed), the info string is the maximal
run of info characters after the following whitespace, and the rest of
the line must be whitespace. -/

/-- A fence-run character, `[`~]` in the source regexes. -/
def fenceCh (c : Char) : Bool :=
  c = btick || c = '~'

/-- The info-string class `[A-Za-z0-9.+#_\-]`. -/
def infoCh (c : Char) : Bool :=
  ('A' ≤ c && c ≤ 'Z') || ('a' ≤ c && c ≤ 'z') || pyDigit c ||
  c = '.' || c = '+' || c = '#' || c = '_' || c = '-'

/-- `OPEN_FENCE_RE.match(line)`, returning `(fence run, info string)`
(`m.group(1)`, `m.group(2)`). -/
def openFenceMatch (line : List Char) : Option (List Char × List Char) :=
  let r1 := line.dropWhile pyWs
  let run := r1.takeWhile fenceCh
  if 3 ≤ run.length then
    let r2 := (r1.drop run.length).dropWhile pyWs
    let info := r2.takeWhile infoCh
    if (r2.drop info.length).dropWhile pyWs = [] then some (run, info) else none
  else none

/-- `CLOSE_FENCE_RE.match(line)`, returning the fence run (`m.group(1)`). -/
def closeFenceMatch (line : List Char) : Option (List Char) :=
  let r1 := line.dropWhile pyWs
  let run := r1.takeWhile fenceCh
  if 3 ≤ run.length then
    if (r1.drop run.length).dropWhile pyWs = [] then some run else none
  else none

/- ### code_fences.py : validate_code_fences -/

/-- First sweep of `validate_code_fences`: line-oriented open/close
tracking.  State is `none` (outside a block) or
`some (fence_char, fence_len, open_line)`.  Returns `some openLine` when
the document ends inside a block.  The outer `Option` models the Python
indexing `m.group(1)[0]` (which would raise on an empty run). -/
def vPass1 : List (List Char) → Nat → Option (Char × Nat × Nat) →
    Option (Option Nat)
  | [], _, st => some (st.map (fun t => t.2.2))
  | line :: rest, i, none =>
      match openFenceMatch line with
      | some (run, _) =>
          match run with
          | [] => none
          | c :: _ => vPass1 rest (i + 1) (some (c, run.length, i))
      | none => vPass1 rest (i + 1) none
  | line :: rest, i, some (fc, fl, ol) =>
      match closeFenceMatch line with
      | some run =>
          match run with
          | [] => none
          | c :: _ =>
              if c = fc ∧ fl ≤ run.length then vPass1 rest (i + 1) none
              else vPass1 rest (i + 1) (some (fc, fl, ol))
      | none => vPass1 rest (i + 1) (some (fc, fl, ol))

/-- Second sweep of `validate_code_fences`: the counter-based stray-closer
detection (`depth` counter; an opening-fence line increments, otherwise a
closing-fence line at depth 0 is reported, at positive depth decrements). -/
def vPass2 : List (List Char) → Nat → Nat → List (List Char)
  | [], _, _ => []
  | line :: rest, i, depth =>
      if (openFenceMatch line).isSome then vPass2 rest (i + 1) (depth + 1)
      else if (closeFenceMatch line).isSome then
        if depth = 0 then
          ("Closing fence without opening on line ".data ++ natChars i) ::
            vPass2 rest (i + 1) depth
        else vPass2 rest (i + 1) (depth - 1)
      else vPass2 rest (i + 1) depth

/-- `validate_code_fences(text)`. -/
def validate_code_fences (text : List Char) : Option (Bool × List (List Char)) :=
  let lines := splitlines text
  match vPass1 lines 1 none with
  | none => none
  | some unclosed =>
      let issues :=
        (match unclosed with
         | some ol => ["Unclosed code fence started on line ".data ++ natChars ol]
         | none => []) ++ vPass2 lines 1 0
      some (decide (issues = []), issues)

/- ### code_fences.py : guess_lang

Each regular expression of `guess_lang` is translated into an equivalent
deterministic scanner.  `re.search` without `^` tries every start
position (`anySuffix`); with `(?m)^` it tries the start of every line
(`anyLineStart`); `\b` before a keyword starting with a word character
requires the preceding character to be a non-word character
(`anySuffixWB`). -/

/-- `re.search` for an anchored-at-position matcher: try every suffix. -/
def anySuffix (p : List Char → Bool) : List Char → Bool
  | [] => p []
  | c :: t => p (c :: t) || anySuffix p t

/-- Python's substring containment `pat in s`. -/
def isSubIn (pat s : List Char) : Bool :=
  anySuffix (fun t => pat.isPrefixOf t) s

/-- `re.search` with a leading `\b` (next char is a word character): try
every suffix whose preceding character is absent or a non-word char. -/
def anySuffixWB (p : List Char → Bool) : Option Char → List Char → Bool
  | prev, [] => (match prev with | none => true | some c0 => !pyWord c0) && p []
  | prev, c :: t =>
      ((match prev with | none => true | some c0 => !pyWord c0) && p (c :: t)) ||
      anySuffixWB p (some c) t

/-- `re.search` with `(?m)^`: try position 0 and every position following
a newline (including end of text). -/
def anyLineStartAux (p : List Char → Bool) : List Char → Bool
  | [] => false
  | c :: t => (if c = '\n' then p t else false) || anyLineStartAux p t

def anyLineStart (p : List Char → Bool) (l : List Char) : Bool :=
  p l || anyLineStartAux p l

/-- `\s*def\s+\w+\s*\(` at a fixed position. -/
def defDeclAt (l : List Char) : Bool :=
  let l1 := l.dropWhile pyWs
  "def".data.isPrefixOf l1 &&
  (let l2 := l1.drop 3
   let w := l2.takeWhile pyWs
   !w.isEmpty &&
   (let l3 := l2.drop w.length
    let wd := l3.takeWhile pyWord
    !wd.isEmpty &&
    ((l3.drop wd.length).dropWhile pyWs).head? = some '('))

/-- `function\s+\w+\s*\(` at a fixed position. -/
def functionDeclAt (l : List Char) : Bool :=
  "function".data.isPrefixOf l &&
  (let l2 := l.drop 8
   let w := l2.takeWhile pyWs
   !w.isEmpty &&
   (let l3 := l2.drop w.length
    let wd := l3.takeWhile pyWord
    !wd.isEmpty &&
    ((l3.drop wd.length).dropWhile pyWs).head? = some '('))

/-- A segment matching `\s+.*\s+` (whitespace, then non-newline filler,
then whitespace): non-trivial exactly when it starts and ends with
whitespace, has length at least two, and its fully-trimmed interior
contains no newline. -/
def wsGapOk (seg : List Char) : Bool :=
  2 ≤ seg.length && pyWs (seg.headD 'x') && pyWs (seg.getLastD 'x') &&
  (pyStrip seg).all (fun c => c ≠ '\n')

/-- The `.*\s+from\s+` continuation of `\bimport\s+.*\s+from\s+`: scan for
an occurrence of `from` preceded by a `\s+.*\s+` gap and followed by
whitespace. -/
def fromSplit : List Char → List Char → Bool
  | _, [] => false
  | segAcc, c :: t =>
      ("from".data.isPrefixOf (c :: t) && wsGapOk segAcc.reverse &&
        !(((c :: t).drop 4).takeWhile pyWs).isEmpty) ||
      fromSplit (c :: segAcc) t

/-- `\bimport\s+.*\s+from\s+` (searched over the lowercased text). -/
def importFromSearch (low : List Char) : Bool :=
  anySuffixWB (fun l => "import".data.isPrefixOf l && fromSplit [] (l.drop 6))
    none low

/-- The shell-command keywords of the Bash heuristic. -/
def bashKeywords : List (List Char) :=
  ["cd".data, "ls".data, "echo".data, "export".data, "pip".data,
   "apt".data, "yum".data, "curl".data, "wget".data, "git".data]

/-- `(?m)^\s*\$?\s*(cd|ls|...)\b` at a line start. -/
def bashCmdAt (l : List Char) : Bool :=
  let l1 := l.dropWhile pyWs
  let l2 := if l1.head? = some '$' then (l1.drop 1).dropWhile pyWs else l1
  bashKeywords.any (fun k =>
    k.isPrefixOf l2 && !pyWord ((l2.drop k.length).headD ' '))

/-- The `.*\bfrom\b` continuation of `\bselect\b.*\bfrom\b`: scan forward
over non-newline characters for a word-bounded `from`. -/
def selectFromInner : Option Char → List Char → Bool
  | _, [] => false
  | prev, c :: t =>
      ((match prev with | none => true | some c0 => !pyWord c0) &&
        "from".data.isPrefixOf (c :: t) && !pyWord (((c :: t).drop 4).headD ' ')) ||
      (if c = '\n' then false else selectFromInner (some c) t)

/-- `\bselect\b.*\bfrom\b`. -/
def selectFromSearch (low : List Char) : Bool :=
  anySuffixWB (fun l =>
      "select".data.isPrefixOf l && !pyWord ((l.drop 6).headD ' ') &&
      selectFromInner (some 't') (l.drop 6))
    none low

/-- `\bcreate\s+table\b`. -/
def createTableSearch (low : List Char) : Bool :=
  anySuffixWB (fun l =>
      "create".data.isPrefixOf l &&
      (let w := (l.drop 6).takeWhile pyWs
       !w.isEmpty &&
       (let l2 := (l.drop 6).drop w.length
        "table".data.isPrefixOf l2 && !pyWord ((l2.drop 5).headD ' '))))
    none low

/-- `(?m)^\s*<html\b` at a line start. -/
def htmlTagAt (l : List Char) : Bool :=
  let l1 := l.dropWhile pyWs
  "<html".data.isPrefixOf l1 && !pyWord ((l1.drop 5).headD ' ')

/-- `re.fullmatch(r'\s*\{[\s\S]*\}\s*', s)`. -/
def jsonShape (s : List Char) : Bool :=
  let t := pyStrip s
  t.head? = some '\x7b' && t.getLast? = some '\x7d' && 2 ≤ t.length

/-- The `\s*.+` tail of the YAML key-value pattern: after the colon, some
prefix of whitespace is followed by a non-newline character. -/
def yamlTailOk (r : List Char) : Bool :=
  let m := r.takeWhile pyWs
  m.any (fun c => c ≠ '\n') || m.length < r.length

/-- `(?m)^\s*[\w\-]+\s*:\s*.+` at a line start. -/
def yamlKeyAt (l : List Char) : Bool :=
  let w := l.dropWhile pyWs
  let k := w.takeWhile (fun c => pyWord c || c = '-')
  !k.isEmpty &&
  (let a := (w.drop k.length).dropWhile pyWs
   a.head? = some ':' && yamlTailOk (a.drop 1))

/-- `\bint\s+main\s*\(`. -/
def intMainSearch (s : List Char) : Bool :=
  anySuffixWB (fun l =>
      "int".data.isPrefixOf l &&
      (let w := (l.drop 3).takeWhile pyWs
       !w.isEmpty &&
       (let l2 := (l.drop 3).drop w.length
        "main".data.isPrefixOf l2 &&
        ((l2.drop 4).dropWhile pyWs).head? = some '(')))
    none s

/-- `\bpublic\s+class\b`. -/
def publicClassSearch (s : List Char) : Bool :=
  anySuffixWB (fun l =>
      "public".data.isPrefixOf l &&
      (let w := (l.drop 6).takeWhile pyWs
       !w.isEmpty &&
       (let l2 := (l.drop 6).drop w.length
        "class".data.isPrefixOf l2 && !pyWord ((l2.drop 5).headD ' '))))
    none s

/-- `\bSystem\.out\.println\(`. -/
def printlnSearch (s : List Char) : Bool :=
  anySuffixWB (fun l => "System.out.println(".data.isPrefixOf l) none s

/-- `guess_lang(code)`. -/
def guess_lang (code : List Char) : Option (List Char) :=
  let s := pyStrip code
  let low := pyLower s
  if anyLineStart defDeclAt s || isSubIn "import ".data low ||
      isSubIn "print(".data s then
    some "python".data
  else if isSubIn "console.log(".data s || anySuffix functionDeclAt s ||
      isSubIn "=> ".data s || importFromSearch low then
    some "javascript".data
  else if anyLineStart bashCmdAt low then
    some "bash".data
  else if selectFromSearch low || createTableSearch low then
    some "sql".data
  else if "<!doctype html".data.isPrefixOf low || anyLineStart htmlTagAt low ||
      "<?xml".data.isPrefixOf low then
    some "html".data
  else if jsonShape s && s.contains ':' then
    some "json".data
  else if anyLineStart yamlKeyAt s && !(s.contains ';' || s.contains '\x7b') then
    some "yaml".data
  else if isSubIn "#include".data s || intMainSearch s then
    some "c".data
  else if publicClassSearch s || printlnSearch s then
    some "java".data
  else if isSubIn "fn main()".data s || isSubIn "let mut ".data s then
    some "rust".data
  else
    none

/- ### code_fences.py : section boundaries and fix_code_fences -/

def SECTION_MARKERS : List (List Char) :=
  ["### Improvements".data, "### Revised Answer".data, "### Comments".data]

/-- `ATX_HEADER_RE.match(line)` for `^[ \t]{0,3}#{3,6}[ \t]+`: at most
three leading spaces/tabs, then a hash run of exactly three to six, then
a space or tab. -/
def atxHeaderMatch (line : List Char) : Bool :=
  let a := line.takeWhile (fun c => c = ' ' || c = '\t')
  a.length ≤ 3 &&
  (let b := (line.drop a.length).takeWhile (fun c => c = '#')
   3 ≤ b.length && b.length ≤ 6 &&
   (match (line.drop (a.length + b.length)).head? with
    | some c => c = ' ' || c = '\t'
    | none => false))

/-- `looks_like_section_boundary(lines, idx)`; `prev` is `lines[idx-1]`
when `idx > 0` (so `_prev_nonblank_is_blank` is `prev` exists and is
blank after stripping). -/
def looks_like_section_boundary (prev : Option (List Char)) (line : List Char) :
    Bool :=
  let ls := line.dropWhile pyWs
  SECTION_MARKERS.any (fun m => m.isPrefixOf ls) ||
  (atxHeaderMatch line &&
    (match prev with
     | some p => (pyStrip p).isEmpty
     | none => false))

/-- Length of the longest run of `ch` in `l` (so `BACKTICKS_RUN_RE(ch)`
produced a nonempty `runs` list exactly when this is positive, and
`max(runs)` equals this value). -/
def maxRunAux (ch : Char) : List Char → Nat → Nat → Nat
  | [], cur, best => max cur best
  | c :: t, cur, best =>
      if c = ch then maxRunAux ch t (cur + 1) best
      else maxRunAux ch t 0 (max cur best)

def maxRun (ch : Char) (l : List Char) : Nat :=
  maxRunAux ch l 0 0

/-- Result of the inner collection loop of `fix_code_fences`: block
content, whether a closer was found, the optional boundary change
message, the unconsumed lines, and the original line preceding them. -/
structure CollectRes where
  buf : List (List Char)
  closed : Bool
  bmsg : Option (List Char)
  rest : List (List Char)

/-- The closing-fence test of the collection loop: `none` models the
`m2.group(1)[0]` indexing (performed whenever `CLOSE_FENCE_RE` matched),
`some true` a matching close (same first character, run length at least
the opening length), `some false` anything else. -/
def closeHit (origHead : Char) (fenceLen : Nat) (l : List Char) : Option Bool :=
  match closeFenceMatch l with
  | none => some false
  | some [] => none
  | some (c :: cs) => some (c = origHead && fenceLen ≤ cs.length + 1)

/-- The `while`-collection of `fix_code_fences`: consume lines until a
matching closing fence (consumed) or a section boundary (not consumed)
or end of input.  `idx` is the 1-based line number of the current line;
`prev` is the previous original line. -/
def collectBlock (origHead : Char) (fenceLen : Nat) :
    Option (List Char) → Nat → List (List Char) → Option CollectRes
  | _, _, [] => some ⟨[], false, none, []⟩
  | prev, idx, l :: rest =>
      match closeHit origHead fenceLen l with
      | none => none
      | some true => some ⟨[], true, none, rest⟩
      | some false =>
          if looks_like_section_boundary prev l then
            some ⟨[], true,
              some ("Inserted missing closing fence before heading at line ".data
                ++ natChars idx),
              l :: rest⟩
          else
            match collectBlock origHead fenceLen (some l) (idx + 1) rest with
            | none => none
            | some r => some ⟨l :: r.buf, r.closed, r.bmsg, r.rest⟩

/-- One fenced block rebuilt, with its change messages, as in the body of
the outer loop of `fix_code_fences`. -/
def rebuildBlock (defaultLang : Option (List Char)) (keep : Bool)
    (origSeries : List Char) (oc : Char) (info : List Char) (r : CollectRes) :
    List (List Char) × List (List Char) :=
  let fence_char := if keep then oc else btick
  let fence_len := origSeries.length
  let lang := pyStrip info
  let code := joinNl r.buf
  let mr := maxRun fence_char code
  let safe_len := max 3 (if 0 < mr then mr + 1 else 3)
  let norm0 := pyLower lang
  let guessed :=
    if norm0.isEmpty then
      match guess_lang code with
      | some g => (g, ["Added guessed language tag: ".data ++ g])
      | none =>
          match defaultLang with
          | some d =>
              if d.isEmpty then (norm0, [])
              else (pyLower d, ["Added default language tag: ".data ++ pyLower d])
          | none => (norm0, [])
    else (norm0, [])
  let norm := guessed.1
  let opener := List.replicate safe_len fence_char ++
    (if norm.isEmpty then [] else ' ' :: norm)
  let closer := List.replicate safe_len fence_char
  let changes :=
    (match r.bmsg with | some m => [m] | none => []) ++
    guessed.2 ++
    (if fence_len ≠ safe_len then
      ["Adjusted fence length from ".data ++ natChars fence_len ++
        " to ".data ++ natChars safe_len]
     else []) ++
    (if r.closed then [] else ["Inserted missing closing fence at end of block".data]) ++
    (if lang ≠ norm ∧ (lang ≠ [] ∨ norm ≠ []) then
      ["Normalized language tag from \x27".data ++ lang ++ "\x27 to \x27".data ++
        norm ++ "\x27".data]
     else [])
  (opener :: (if r.buf.isEmpty then [] else [code]) ++ [closer], changes)

/-- The outer loop of `fix_code_fences` (fuel-based; the fuel-exhaustion
branch returns `none` and is never reached from the wrapper). -/
def fixLoop (defaultLang : Option (List Char)) (keep : Bool) :
    Nat → Nat → List (List Char) →
    Option (List (List Char) × List (List Char))
  | 0, _, _ => none
  | fuel + 1, idx, lines =>
      match lines with
      | [] => some ([], [])
      | line :: rest =>
          match openFenceMatch line with
          | none =>
              match fixLoop defaultLang keep fuel (idx + 1) rest with
              | none => none
              | some (o, ch) => some (line :: o, ch)
          | some (origSeries, info) =>
              match origSeries with
              | [] => none
              | oc :: _ =>
                  match collectBlock oc origSeries.length (some line) (idx + 1) rest with
                  | none => none
                  | some r =>
                      let blk := rebuildBlock defaultLang keep origSeries oc info r
                      let nextIdx := idx + 1 + (rest.length - r.rest.length)
                      match fixLoop defaultLang keep fuel nextIdx r.rest with
                      | none => none
                      | some (o, ch) => some (blk.1 ++ o, blk.2 ++ ch)

/-- `fix_code_fences(text, default_lang, keep_fence_char)`. -/
def fix_code_fences (text : List Char) (defaultLang : Option (List Char))
    (keep : Bool) : Option (List Char × List (List Char)) :=
  let lines := splitlines text
  match fixLoop defaultLang keep (lines.length + 1) 1 lines with
  | none => none
  | some (out, changes) => some (joinNl out, changes)

/-- `ensure_fenced_code(text, default_lang, keep_fence_char)`. -/
def ensure_fenced_code (text : List Char) (defaultLang : Option (List Char))
    (keep : Bool) : Option (List Char × List (List Char)) :=
  match validate_code_fences text with
  | none => none
  | some (ok, issues) =>
      if ok then
        match fix_code_fences text defaultLang keep with
        | none => none
        | some (fixed, changes) => some (fixed, changes)
      else
        match fix_code_fences text defaultLang keep with
        | none => none
        | some (fixed, changes) =>
            match validate_code_fences fixed with
            | none => none
            | some (ok2, _) =>
                some (fixed, issues ++ changes ++
                  (if ok2 then [] else ["Still invalid after fix".data]))

/- ### latex.py : Edit records and delimiter tables -/

inductive EditKind where
  | insert
  | replace
  | delete
deriving DecidableEq

/-- The `Edit` dataclass of `latex.py`. -/
structure Edit where
  kind : EditKind
  pos : Nat
  before : List Char
  after : List Char
  reason : List Char
deriving DecidableEq

/-- `LaTeXFixer._tokens`, longest-first. -/
def latexTokens : List (List Char) :=
  ["\\[".data, "\\]".data, "\\(".data, "\\)".data, "$$".data, "$".data]

/-- Keys of `LaTeXFixer._openers`. -/
def latexOpeners : List (List Char) :=
  ["\\[".data, "\\(".data, "$$".data, "$".data]

/-- Keys of `LaTeXFixer._closers`. -/
def latexClosers : List (List Char) :=
  ["\\]".data, "\\)".data, "$$".data, "$".data]

/-- The `LaTeXFixer._matching` dictionary; `none` models a `KeyError`. -/
def latexMatching (t : List Char) : Option (List Char) :=
  if t = "\\[".data then some "\\]".data
  else if t = "\\(".data then some "\\)".data
  else if t = "$$".data then some "$$".data
  else if t = "$".data then some "$".data
  else none

/-- The token-matching loop of `_scan_and_fix` (`for t in self._tokens:
if s.startswith(t, i)`): first (longest-first) token that is a prefix of
the remaining text. -/
def firstTok (l : List Char) : Option (List Char) :=
  latexTokens.find? (fun t => t.isPrefixOf l)

/-- `LaTeXFixer._count_trailing_backslashes(prefix)`. -/
def count_trailing_backslashes (pre : List Char) : Nat :=
  (pre.reverse.takeWhile (fun c => c = '\\')).length

/-- The `(?:[.,]\d{3})*` part of the currency pattern: number of
characters consumed by the greedy repetition of a separator followed by
exactly three digits. -/
def currencyReps : List Char → Nat
  | c :: a :: b :: d :: rest =>
      if (c = '.' || c = ',') && pyDigit a && pyDigit b && pyDigit d then
        4 + currencyReps rest
      else 0
  | _ => 0

/-- `LaTeXFixer._looks_like_currency(s, i)`: the regex
`\$(\d{1,3}(?:[.,]\d{3})*|\d+)(?:[.,]\d+)?` is deterministic (the first
alternative succeeds whenever a digit follows, all the remaining parts
are greedy with disjoint follow-sets), and the result is `False` exactly
when there is no digit after the `$` or the character right after the
matched numeral is another `$`. -/
def looks_like_currency (s : List Char) (i : Nat) : Bool :=
  match s.drop i with
  | '$' :: rest =>
      let allDigits := rest.takeWhile pyDigit
      if allDigits.isEmpty then false
      else
        let r1 := rest.drop (min allDigits.length 3)
        let r2 := r1.drop (currencyReps r1)
        let dec :=
          match r2 with
          | c :: t =>
              if (c = '.' || c = ',') && !(t.takeWhile pyDigit).isEmpty then
                1 + (t.takeWhile pyDigit).length
              else 0
          | [] => 0
        match (r2.drop dec).head? with
        | some c => c ≠ '$'
        | none => true
  | _ => false

/- ### latex.py : protected spans

Each `finditer` over a protected-region pattern is translated into a
position-by-position scanner: at each index either the (deterministic)
pattern matches and the scanner emits the span and resumes at the match
end, or it advances by one character, exactly as the regex engine does. -/

/-- A protected span `[start, end)`. -/
abbrev Span := Nat × Nat

/-- First position at or after `i` where `pat` starts (`l` is the suffix
of the text at `i`). -/
def findPatFrom (pat : List Char) : Nat → List Char → Option Nat
  | i, [] => if pat.isPrefixOf [] then some i else none
  | i, c :: t =>
      if pat.isPrefixOf (c :: t) then some i else findPatFrom pat (i + 1) t

/-- Spans of `` ```.*?``` `` (DOTALL, non-greedy): a triple backtick pair;
the closing triple is the first occurrence at least three characters
later, and scanning resumes after it.  If no closing triple exists, no
start of a triple can complete a match. -/
def codeFenceSpans : Nat → Nat → List Char → List Span
  | 0, _, _ => []
  | fuel + 1, i, s =>
      match findPatFrom "```".data i (s.drop i) with
      | none => []
      | some p =>
          match findPatFrom "```".data (p + 3) (s.drop (p + 3)) with
          | none => []
          | some q => (p, q + 3) :: codeFenceSpans fuel (q + 3) s

/-- Spans of `` `[^`\n]*` ``: a backtick, a maximal run of
non-backtick/non-newline characters, and a closing backtick. -/
def inlineCodeSpans : Nat → Nat → List Char → List Span
  | 0, _, _ => []
  | fuel + 1, i, s =>
      match s.drop i with
      | [] => []
      | c :: t =>
          if c = btick then
            let run := t.takeWhile (fun d => d ≠ btick && d ≠ '\n')
            if (t.drop run.length).head? = some btick then
              (i, i + run.length + 2) :: inlineCodeSpans fuel (i + run.length + 2) s
            else inlineCodeSpans fuel (i + 1) s
          else inlineCodeSpans fuel (i + 1) s

/-- Spans of `(?m)%[^\n]*$`: from a percent sign to the end of its line. -/
def commentSpans : Nat → Nat → List Char → List Span
  | 0, _, _ => []
  | fuel + 1, i, s =>
      match s.drop i with
      | [] => []
      | c :: t =>
          if c = '%' then
            let run := t.takeWhile (fun d => d ≠ '\n')
            (i, i + 1 + run.length) :: commentSpans fuel (i + 1 + run.length) s
          else commentSpans fuel (i + 1) s

/-- The environment names of `_verb_env_open`. -/
def verbNames : List (List Char) :=
  ["verbatim".data, "lstlisting".data, "minted".data]

/-- `_verb_env_open` matched at position `i`: `\begin{`, one of the three
names, a word boundary (the optional `*` is absorbed by the following
`[^\}]*` when present), non-brace filler and a closing brace.  Returns
the name and the end of the open match. -/
def verbOpenAt (s : List Char) (i : Nat) : Option (List Char × Nat) :=
  let l := s.drop i
  if "\\begin\x7b".data.isPrefixOf l then
    verbNames.findSome? (fun nm =>
      if nm.isPrefixOf (l.drop 7) && !pyWord ((l.drop (7 + nm.length)).headD ' ') then
        let after := l.drop (7 + nm.length)
        let run := after.takeWhile (fun c => c ≠ '\x7d')
        if (after.drop run.length).head? = some '\x7d' then
          some (nm, i + 7 + nm.length + run.length + 1)
        else none
      else none)
  else none

/-- Spans of verbatim-like environments: each `_verb_env_open` match is
paired with the first following `\end{name}` (or end of text), and the
`finditer` scan resumes at the end of the open match. -/
def verbEnvSpans : Nat → Nat → List Char → List Span
  | 0, _, _ => []
  | fuel + 1, i, s =>
      match s.drop i with
      | [] => []
      | _ :: _ =>
          match verbOpenAt s i with
          | some (nm, oEnd) =>
              let ep := "\\end\x7b".data ++ nm ++ "\x7d".data
              (i, match findPatFrom ep oEnd (s.drop oEnd) with
                  | some e => e + ep.length
                  | none => s.length) :: verbEnvSpans fuel oEnd s
          | none => verbEnvSpans fuel (i + 1) s

/-- `_verb_inline` matched at position `i`:
`\verb<delim>…<delim>` with a non-alphanumeric non-whitespace delimiter
and no newline before the closing delimiter (`.` does not match `\n`). -/
def verbInlineAt (s : List Char) (i : Nat) : Option Nat :=
  let l := s.drop i
  if "\\verb".data.isPrefixOf l then
    match l.drop 5 with
    | [] => none
    | d :: t =>
        if !(('A' ≤ d && d ≤ 'Z') || ('a' ≤ d && d ≤ 'z') || pyDigit d) && !pyWs d then
          let run := t.takeWhile (fun c => c ≠ d && c ≠ '\n')
          if (t.drop run.length).head? = some d then
            some (i + 5 + 1 + run.length + 1)
          else none
        else none
  else none

/-- Spans of inline `\verb` constructs. -/
def verbInlineSpans : Nat → Nat → List Char → List Span
  | 0, _, _ => []
  | fuel + 1, i, s =>
      match s.drop i with
      | [] => []
      | _ :: _ =>
          match verbInlineAt s i with
          | some e => (i, e) :: verbInlineSpans fuel e s
          | none => verbInlineSpans fuel (i + 1) s

/-- The merge loop of `_protected_spans`: coalesce a sorted span list
(`st > merged[-1][1]` starts a new interval, otherwise the last interval
is widened). -/
def mergeSpansAux : List Span → List Span → List Span
  | acc, [] => acc.reverse
  | [], sp :: rest => mergeSpansAux [sp] rest
  | (pst, pen) :: accT, (st, en) :: rest =>
      if pen < st then mergeSpansAux ((st, en) :: (pst, pen) :: accT) rest
      else mergeSpansAux ((pst, max pen en) :: accT) rest

def mergeSpans (l : List Span) : List Span :=
  mergeSpansAux [] l

/-- Ascending lexicographic order on spans, the order of Python's
`spans.sort()` on pairs. -/
def spanLe (x y : Span) : Bool :=
  x.1 < y.1 || (x.1 = y.1 && x.2 ≤ y.2)

def insertSpan (x : Span) : List Span → List Span
  | [] => [x]
  | y :: t => if spanLe x y then x :: y :: t else y :: insertSpan x t

/-- `spans.sort()`: lexicographic ascending.  (Insertion sort; since the
order is total, the resulting non-decreasing arrangement is the unique
sorted list, the one Python's sort produces.) -/
def sortSpans : List Span → List Span
  | [] => []
  | x :: t => insertSpan x (sortSpans t)

/-- `LaTeXFixer._protected_spans(s)`: collect, sort, merge. -/
def protected_spans (s : List Char) : List Span :=
  let fuel := s.length + 1
  let spans :=
    codeFenceSpans fuel 0 s ++ inlineCodeSpans fuel 0 s ++
    commentSpans fuel 0 s ++ verbEnvSpans fuel 0 s ++ verbInlineSpans fuel 0 s
  mergeSpans (sortSpans spans)

/-- `LaTeXFixer._in_protected` together with the span-selecting loop of
`_scan_and_fix`: the first listed span containing `i`. -/
def find_span (prot : List Span) (i : Nat) : Option Span :=
  prot.find? (fun p => p.1 ≤ i && i < p.2)

/- ### latex.py : the core scan -/

/-- The branch taken by one iteration of the `while i < n` loop of
`_scan_and_fix`, as a function of the position and the tokens on the
stack (the only stack data the branch conditions consult). -/
inductive ScanAction where
  | protJump (en : Nat)
  | newlineClose
  | plainChar
  | escapedTok (t : List Char)
  | currencyTok
  | openerTok (t : List Char)
  | closerTok (t : List Char)
deriving DecidableEq

/-- Branch selection of one loop iteration of `_scan_and_fix`, in source
order: protected span, newline auto-close, token match, escape check,
currency heuristic, opener/closer classification. -/
def classify (s : List Char) (prot : List Span) (cn : Bool) (i : Nat)
    (toks : List (List Char)) : ScanAction :=
  match find_span prot i with
  | some (_, en) => .protJump en
  | none =>
      if (s.drop i).head? = some '\n' ∧ cn ∧ toks ≠ [] then .newlineClose
      else
        match firstTok (s.drop i) with
        | none => .plainChar
        | some t =>
            if count_trailing_backslashes (s.take i) % 2 = 1 then .escapedTok t
            else if t = "$".data ∧ toks = [] ∧ looks_like_currency s i then
              .currencyTok
            else if t ∈ latexOpeners ∧ t ∉ latexClosers then
              .openerTok t
            else if t ∈ latexClosers ∧ t ∉ latexOpeners then
              .closerTok t
            else
              match toks with
              | top :: _ => if top = t then .closerTok t else .openerTok t
              | [] => .openerTok t

/-- The scan state of `_scan_and_fix`: cursor, output pieces (most recent
first), edits (most recent first) and the open-math stack (top first;
entries are `(opener token, output-length snapshot, original index)`). -/
structure ScanState where
  i : Nat
  out : List (List Char)
  eds : List Edit
  stk : List (List Char × Nat × Nat)
deriving DecidableEq

/-- The `insert_closer` helper of `_scan_and_fix`, as the edit record it
appends. -/
def insertCloserEdit (pos : Nat) (closer tokOpen whereDesc : List Char) : Edit :=
  ⟨.insert, pos, [], closer,
    "Inserted missing closer ".data ++ closer ++ " for ".data ++ tokOpen ++
      " ".data ++ whereDesc⟩

/-- The newline auto-close loop: pop and close every open entry, most
recently opened first. -/
def closeAllAtNewline : List (List Char × Nat × Nat) → Nat → List (List Char) →
    List Edit → Option (List (List Char) × List Edit)
  | [], _, out, eds => some (out, eds)
  | (tok, _, _) :: rest, pos, out, eds =>
      match latexMatching tok with
      | none => none
      | some closer =>
          closeAllAtNewline rest pos (closer :: out)
            (insertCloserEdit pos closer tok "at end of line".data :: eds)

/-- One iteration of the `while i < n` loop of `_scan_and_fix`. -/
def scanStep (s : List Char) (prot : List Span) (cn : Bool) (st : ScanState) :
    Option ScanState :=
  match classify s prot cn st.i (st.stk.map (fun e => e.1)) with
  | .protJump en =>
      some ⟨en, (s.drop st.i).take (en - st.i) :: st.out, st.eds, st.stk⟩
  | .newlineClose =>
      match closeAllAtNewline st.stk st.i st.out st.eds with
      | none => none
      | some (out, eds) => some ⟨st.i + 1, ['\n'] :: out, eds, []⟩
  | .plainChar =>
      some ⟨st.i + 1, [s.getD st.i ' '] :: st.out, st.eds, st.stk⟩
  | .escapedTok t => some ⟨st.i + t.length, t :: st.out, st.eds, st.stk⟩
  | .currencyTok => some ⟨st.i + 1, ['$'] :: st.out, st.eds, st.stk⟩
  | .openerTok t =>
      match st.stk with
      | [] =>
          some ⟨st.i + t.length, t :: st.out, st.eds,
            [(t, st.out.length, st.i)]⟩
      | (openTok, _, _) :: rest =>
          match latexMatching openTok with
          | none => none
          | some closer =>
              let out1 := closer :: st.out
              some ⟨st.i + t.length, t :: out1,
                insertCloserEdit st.i closer openTok
                  "before opening a new math block".data :: st.eds,
                (t, out1.length, st.i) :: rest⟩
  | .closerTok t =>
      match st.stk with
      | [] =>
          some ⟨st.i + t.length, st.out,
            ⟨.delete, st.i, t, [],
              "Stray closer ".data ++ t ++ " removed".data⟩ :: st.eds,
            []⟩
      | (openTok, _, _) :: rest =>
          match latexMatching openTok with
          | none => none
          | some want =>
              if t = want then
                some ⟨st.i + t.length, t :: st.out, st.eds, rest⟩
              else
                some ⟨st.i + t.length, want :: st.out,
                  ⟨.replace, st.i, t, want,
                    "Mismatched closer: ".data ++ t ++ " -> ".data ++ want ++
                      " for opener ".data ++ openTok⟩ :: st.eds,
                  rest⟩

/-- The end-of-text loop of `_scan_and_fix`: close all remaining open
entries in LIFO order, then assemble output and edits. -/
def finalizeScan (n : Nat) : List (List Char × Nat × Nat) → List (List Char) →
    List Edit → Option (List Char × List Edit)
  | [], out, eds => some (out.reverse.flatten, eds.reverse)
  | (tok, _, _) :: rest, out, eds =>
      match latexMatching tok with
      | none => none
      | some closer =>
          finalizeScan n rest (closer :: out)
            (⟨.insert, n, [], closer,
              "Inserted missing closer ".data ++ closer ++
                " at end of document".data⟩ :: eds)

/-- The `while i < n` loop of `_scan_and_fix` (fuel-based; the cursor
advances every iteration, so fuel `n + 1` never runs out). -/
def scanAux (s : List Char) (prot : List Span) (cn : Bool) :
    Nat → ScanState → Option (List Char × List Edit)
  | 0, _ => none
  | fuel + 1, st =>
      if st.i < s.length then
        match scanStep s prot cn st with
        | none => none
        | some st2 => scanAux s prot cn fuel st2
      else finalizeScan s.length st.stk st.out st.eds

/-- `LaTeXFixer.fix(text)` (`_scan_and_fix` on `_protected_spans`). -/
def scan_and_fix (s : List Char) (cn : Bool) : Option (List Char × List Edit) :=
  scanAux s (protected_spans s) cn (s.length + 1) ⟨0, [], [], []⟩

/- ### latex.py : fix_align_environments -/

/-- The `align\*?|aligned` alternation followed by `}`, at the position
just after `\begin{`. -/
def alignEnvAt (l : List Char) : Option (List Char) :=
  if "align*\x7d".data.isPrefixOf l then some "align*".data
  else if "align\x7d".data.isPrefixOf l then some "align".data
  else if "aligned\x7d".data.isPrefixOf l then some "aligned".data
  else none

/-- Leftmost match of `\begin{(align\*?|aligned)}(.*?)\end{\1}` (DOTALL)
at or after position `i`: returns match start, environment name, content
start and match end. -/
def findAlignBegin : Nat → Nat → List Char → Option (Nat × List Char × Nat × Nat)
  | 0, _, _ => none
  | fuel + 1, i, s =>
      let tryHere : Option (Nat × List Char × Nat × Nat) :=
        if "\\begin\x7b".data.isPrefixOf (s.drop i) then
          match alignEnvAt ((s.drop i).drop 7) with
          | some env =>
              let cs := i + 7 + env.length + 1
              let ep := "\\end\x7b".data ++ env ++ "\x7d".data
              match findPatFrom ep cs (s.drop cs) with
              | some e => some (i, env, cs, e + ep.length)
              | none => none
          | none => none
        else none
      match tryHere with
      | some r => some r
      | none =>
          match s.drop i with
          | [] => none
          | _ :: _ => findAlignBegin fuel (i + 1) s

/-- Python `str.replace(pat, "")`: remove non-overlapping occurrences,
left to right. -/
def replaceAllAux (pat : List Char) : Nat → List Char → List Char
  | 0, l => l
  | fuel + 1, l =>
      if pat.isPrefixOf l then replaceAllAux pat fuel (l.drop pat.length)
      else
        match l with
        | [] => []
        | c :: t => c :: replaceAllAux pat fuel t

def replaceAll (pat l : List Char) : List Char :=
  replaceAllAux pat (l.length + 1) l

/-- `re.sub(r"\)\s*(\\\w+)", r") \\\\\1", content)`: after a closing
parenthesis and optional whitespace, a backslash-command becomes
`") "`, two literal backslashes, and the command. -/
def rowBreakSub : Nat → List Char → List Char
  | 0, l => l
  | fuel + 1, l =>
      match l with
      | [] => []
      | c :: t =>
          if c = ')' then
            let w := t.takeWhile pyWs
            match t.drop w.length with
            | '\\' :: r2 =>
                let wd := r2.takeWhile pyWord
                if wd.isEmpty then ')' :: rowBreakSub fuel t
                else
                  ')' :: ' ' :: '\\' :: '\\' :: '\\' ::
                    (wd ++ rowBreakSub fuel (r2.drop wd.length))
            | _ => ')' :: rowBreakSub fuel t
          else c :: rowBreakSub fuel t

/-- The `replacer` closure of `fix_align_environments`. -/
def alignReplacer (content : List Char) : List Char :=
  let c1 := replaceAll "$$$$".data content
  let c2 := replaceAll "$$".data c1
  let c3 := rowBreakSub (c2.length + 1) c2
  "$$\n\\begin{aligned}\n".data ++ pyStrip c3 ++ "\n\\end{aligned}\n$$".data

/-- The global `pattern.sub(replacer, text)` loop. -/
def alignSub : Nat → List Char → List Char
  | 0, l => l
  | fuel + 1, l =>
      match findAlignBegin (l.length + 1) 0 l with
      | none => l
      | some (p, env, cs, q) =>
          l.take p ++
            alignReplacer ((l.drop cs).take (q - (env.length + 6) - cs)) ++
            alignSub fuel (l.drop q)

/-- `fix_align_environments(text)`. -/
def fix_align_environments (text : List Char) : List Char :=
  alignSub (text.length + 1) text

/-- `fix_latex_delimiters(text, close_on_newline)`. -/
def fix_latex_delimiters (text : List Char) (cn : Bool) :
    Option (List Char × List Edit) :=
  match scan_and_fix text cn with
  | none => none
  | some (fixed, edits) => some (fix_align_environments fixed, edits)

/- ### The well-formedness checker for the idempotence property -/

/-- Modelled from the spec: "no unbalanced math delimiters outside
protected spans".  The checker traverses the text exactly as
`_scan_and_fix` does (same protected spans, escapes, currency heuristic
and token classification) keeping only the stack of open tokens, and
returns `false` as soon as any repair would be triggered: an auto-close
at a newline, an opener while math is already open, a stray closer, a
mismatched closer, or an entry still open at the end of the text. -/
def balancedAux (s : List Char) (prot : List Span) (cn : Bool) :
    Nat → Nat → List (List Char) → Bool
  | 0, _, _ => false
  | fuel + 1, i, toks =>
      if i < s.length then
        match classify s prot cn i toks with
        | .protJump en => balancedAux s prot cn fuel en toks
        | .newlineClose => false
        | .plainChar => balancedAux s prot cn fuel (i + 1) toks
        | .escapedTok t => balancedAux s prot cn fuel (i + t.length) toks
        | .currencyTok => balancedAux s prot cn fuel (i + 1) toks
        | .openerTok t =>
            match toks with
            | [] => balancedAux s prot cn fuel (i + t.length) [t]
            | _ :: _ => false
        | .closerTok t =>
            match toks with
            | [] => false
            | top :: rest =>
                match latexMatching top with
                | none => false
                | some w =>
                    if t = w then balancedAux s prot cn fuel (i + t.length) rest
                    else false
      else toks.isEmpty

/-- Modelled from the spec: a text has "no unbalanced math delimiters
outside protected spans" when the balance checker accepts it. -/
def balancedOutsideProtected (s : List Char) (cn : Bool) : Bool :=
  balancedAux s (protected_spans s) cn (s.length + 1) 0 []

/-- The matching closer of a stack token (defaulting on a failed lookup;
the scan invariant below shows the default is never consulted). -/
def closerOfD (t : List Char) : List Char :=
  (latexMatching t).getD []

/-- The edit appended by the end-of-text loop for one open entry. -/
def endDocEdit (n : Nat) (t : List Char) : Edit :=
  ⟨.insert, n, [], closerOfD t,
    "Inserted missing closer ".data ++ closerOfD t ++
      " at end of document".data⟩

/-- All tokens on the stack are keys of the `_matching` dictionary. -/
def stkToksOk (stk : List (List Char × Nat × Nat)) : Bool :=
  stk.all (fun e => (latexMatching e.1).isSome)

/- ### Theorems: code-fence validator -/

/-- Every line matched by `CLOSE_FENCE_RE` is also matched by
`OPEN_FENCE_RE` (with an empty info string): a closing-fence line is an
opening-fence line whose language tag is empty. -/
theorem closeFenceMatch_open {l run : List Char}
    (h : closeFenceMatch l = some run) : openFenceMatch l = some (run, []) := by
  simp only [closeFenceMatch] at h
  simp only [openFenceMatch]
  split_ifs at h with h1 h2
  · injection h with h
    subst h
    rw [if_pos h1, h2]
    simp

/-- The fence run of an `OPEN_FENCE_RE` match has at least three
characters. -/
theorem openFenceMatch_len {l run info : List Char}
    (h : openFenceMatch l = some (run, info)) : 3 ≤ run.length := by
  simp only [openFenceMatch] at h
  split_ifs at h with h1 h2
  · injection h with h
    injection h with ha hb
    rw [← ha]
    exact h1

/-- The fence run of a `CLOSE_FENCE_RE` match has at least three
characters. -/
theorem closeFenceMatch_len {l run : List Char}
    (h : closeFenceMatch l = some run) : 3 ≤ run.length := by
  simp only [closeFenceMatch] at h
  split_ifs at h with h1 h2
  · injection h with h
    rw [← h]
    exact h1

/-- C1.  The claim is right and the code is wrong: the spec (and the
validator docstring) promise a `"Closing fence without opening on line
N"` issue for a stray closing fence, but every closing-fence line also
matches `OPEN_FENCE_RE` (empty language tag), so the `elif` branch of
the counter sweep is unreachable: the sweep never reports anything for
any input.  On the failing input `` "```" `` (a single stray fence line)
the validator reports only the unclosed-fence issue from the first
sweep. -/
theorem validate_stray_closer_never_reported :
    validate_code_fences "```".data =
      some (false, ["Unclosed code fence started on line 1".data]) ∧
    ∀ lines i depth, vPass2 lines i depth = [] := by
  constructor
  · decide
  · intro lines
    induction lines with
    | nil => intro i d; rfl
    | cons l rest ih =>
        intro i d
        unfold vPass2
        by_cases ho : (openFenceMatch l).isSome
        · simp [ho, ih]
        · have hc : ¬ (closeFenceMatch l).isSome = true := by
            intro hc'
            obtain ⟨run, hr⟩ := Option.isSome_iff_exists.mp hc'
            exact ho (by simp [closeFenceMatch_open hr])
          simp [ho, hc, ih]

/-- The first validator sweep always returns normally (the guarded
`m.group(1)[0]` indexings cannot fail: matched runs are nonempty). -/
theorem vPass1_isSome :
    ∀ (lines : List (List Char)) (i : Nat) (st : Option (Char × Nat × Nat)),
      (vPass1 lines i st).isSome := by
  intro lines
  induction lines with
  | nil => intro i st; cases st <;> rfl
  | cons l rest ih =>
      intro i st
      cases st with
      | none =>
          unfold vPass1
          cases ho : openFenceMatch l with
          | none => exact ih _ _
          | some ri =>
              obtain ⟨run, info⟩ := ri
              cases run with
              | nil => exact absurd (openFenceMatch_len ho) (by simp)
              | cons c cs => exact ih _ _
      | some st0 =>
          obtain ⟨fc, fl, ol⟩ := st0
          unfold vPass1
          cases hc : closeFenceMatch l with
          | none => exact ih _ _
          | some run =>
              cases run with
              | nil => exact absurd (closeFenceMatch_len hc) (by simp)
              | cons c cs =>
                  dsimp only
                  split <;> exact ih _ _

/-- `validate_code_fences` always returns normally. -/
theorem validate_code_fences_isSome (text : List Char) :
    (validate_code_fences text).isSome := by
  obtain ⟨r, hr⟩ := Option.isSome_iff_exists.mp (vPass1_isSome (splitlines text) 1 none)
  simp [validate_code_fences, hr]

/-- The closing-fence test always returns normally: a matched run is
nonempty. -/
theorem closeHit_isSome (oc : Char) (fl : Nat) (l : List Char) :
    (closeHit oc fl l).isSome := by
  unfold closeHit
  cases hc : closeFenceMatch l with
  | none => rfl
  | some run =>
      cases run with
      | nil => exact absurd (closeFenceMatch_len hc) (by simp)
      | cons c cs => rfl

/-- The inner collection loop of `fix_code_fences` always returns
normally. -/
theorem collectBlock_isSome (oc : Char) (fl : Nat) :
    ∀ (lines : List (List Char)) (prev : Option (List Char)) (idx : Nat),
      (collectBlock oc fl prev idx lines).isSome := by
  intro lines
  induction lines with
  | nil => intro prev idx; rfl
  | cons l rest ih =>
      intro prev idx
      unfold collectBlock
      obtain ⟨b, hb⟩ := Option.isSome_iff_exists.mp (closeHit_isSome oc fl l)
      rw [hb]
      cases b
      · dsimp only
        split
        · rfl
        · obtain ⟨r, hr⟩ := Option.isSome_iff_exists.mp (ih (some l) (idx + 1))
          rw [hr]
          rfl
      · rfl

/-- The unconsumed lines of the collection loop form a suffix of its
input: no lines are invented. -/
theorem collectBlock_rest_le (oc : Char) (fl : Nat) :
    ∀ (lines : List (List Char)) (prev : Option (List Char)) (idx : Nat)
      (r : CollectRes),
      collectBlock oc fl prev idx lines = some r → r.rest.length ≤ lines.length := by
  intro lines
  induction lines with
  | nil =>
      intro prev idx r h
      injection h with h
      rw [← h]
  | cons l rest ih =>
      intro prev idx r h
      unfold collectBlock at h
      cases hb : closeHit oc fl l with
      | none => rw [hb] at h; exact absurd h (by simp)
      | some b =>
          rw [hb] at h
          cases b
          · dsimp only at h
            split at h
            · injection h with h
              rw [← h]
            · cases hcb : collectBlock oc fl (some l) (idx + 1) rest with
              | none => rw [hcb] at h; exact absurd h (by simp)
              | some r0 =>
                  rw [hcb] at h
                  injection h with h
                  rw [← h]
                  exact Nat.le_succ_of_le (ih (some l) (idx + 1) r0 hcb)
          · dsimp only at h
            injection h with h
            rw [← h]
            simp

/-- The outer repair loop always returns normally when given enough fuel
(one unit per remaining line suffices, because at least one line is
consumed per iteration). -/
theorem fixLoop_isSome (d : Option (List Char)) (k : Bool) :
    ∀ (fuel : Nat) (idx : Nat) (lines : List (List Char)),
      lines.length < fuel → (fixLoop d k fuel idx lines).isSome := by
  intro fuel
  induction fuel with
  | zero => intro idx lines h; exact absurd h (by simp)
  | succ f ih =>
      intro idx lines h
      cases lines with
      | nil => rfl
      | cons line rest =>
          cases ho : openFenceMatch line with
          | none =>
              obtain ⟨p, hp⟩ := Option.isSome_iff_exists.mp
                (ih (idx + 1) rest (by simpa using Nat.lt_of_succ_lt_succ h))
              obtain ⟨o, ch⟩ := p
              simp [fixLoop, ho, hp]
          | some ri =>
              obtain ⟨origSeries, info⟩ := ri
              cases origSeries with
              | nil => exact absurd (openFenceMatch_len ho) (by simp)
              | cons oc ocs =>
                  obtain ⟨r, hr⟩ := Option.isSome_iff_exists.mp
                    (collectBlock_isSome oc (oc :: ocs).length rest (some line) (idx + 1))
                  have hle : r.rest.length ≤ rest.length :=
                    collectBlock_rest_le _ _ _ _ _ _ hr
                  obtain ⟨p, hp⟩ := Option.isSome_iff_exists.mp
                    (ih (idx + 1 + (rest.length - r.rest.length)) r.rest
                      (by
                        have hrl : rest.length < f := by
                          have := Nat.lt_of_succ_lt_succ h
                          simpa using this
                        omega))
                  obtain ⟨o, ch⟩ := p
                  simp only [List.length_cons] at hr
                  simp [fixLoop, ho, hr, hp]

/-- `fix_code_fences` always returns normally. -/
theorem fix_code_fences_isSome (text : List Char) (d : Option (List Char))
    (k : Bool) : (fix_code_fences text d k).isSome := by
  obtain ⟨p, hp⟩ := Option.isSome_iff_exists.mp
    (fixLoop_isSome d k ((splitlines text).length + 1) 1 (splitlines text)
      (Nat.lt_succ_self _))
  obtain ⟨o, ch⟩ := p
  simp [fix_code_fences, hp]

/-- `ensure_fenced_code` always returns normally. -/
theorem ensure_fenced_code_isSome (text : List Char) (d : Option (List Char))
    (k : Bool) : (ensure_fenced_code text d k).isSome := by
  obtain ⟨v, hv⟩ := Option.isSome_iff_exists.mp (validate_code_fences_isSome text)
  obtain ⟨ok, issues⟩ := v
  obtain ⟨p, hp⟩ := Option.isSome_iff_exists.mp (fix_code_fences_isSome text d k)
  obtain ⟨fixed, changes⟩ := p
  obtain ⟨v2, hv2⟩ := Option.isSome_iff_exists.mp (validate_code_fences_isSome fixed)
  obtain ⟨ok2, issues2⟩ := v2
  cases ok <;> simp [ensure_fenced_code, hv, hp, hv2]

/-- C10.  The repaired text of `ensure_fenced_code` is, on both branches
of the validation test, exactly the text of a single application of
`fix_code_fences` with the same arguments: the two entry points differ
only in the returned message lists. -/
theorem ensure_text_eq_fix_text (text : List Char) (d : Option (List Char))
    (k : Bool) :
    (ensure_fenced_code text d k).map Prod.fst =
      (fix_code_fences text d k).map Prod.fst := by
  obtain ⟨v, hv⟩ := Option.isSome_iff_exists.mp (validate_code_fences_isSome text)
  obtain ⟨ok, issues⟩ := v
  obtain ⟨p, hp⟩ := Option.isSome_iff_exists.mp (fix_code_fences_isSome text d k)
  obtain ⟨fixed, changes⟩ := p
  obtain ⟨v2, hv2⟩ := Option.isSome_iff_exists.mp (validate_code_fences_isSome fixed)
  obtain ⟨ok2, issues2⟩ := v2
  cases ok <;> simp [ensure_fenced_code, hv, hp, hv2]

/-- When no line is an opening fence, the repair loop copies every line
unchanged and records no change. -/
theorem fixLoop_no_fence (d : Option (List Char)) (k : Bool) :
    ∀ (fuel : Nat) (idx : Nat) (lines : List (List Char)),
      lines.length < fuel →
      lines.all (fun l => (openFenceMatch l).isNone) = true →
      fixLoop d k fuel idx lines = some (lines, []) := by
  intro fuel
  induction fuel with
  | zero => intro idx lines h _; exact absurd h (by simp)
  | succ f ih =>
      intro idx lines h hall
      cases lines with
      | nil => rfl
      | cons line rest =>
          simp only [List.all_cons, Bool.and_eq_true] at hall
          have ho : openFenceMatch line = none := by
            cases hx : openFenceMatch line
            · rfl
            · rw [hx] at hall; simp at hall
          have hrest := ih (idx + 1) rest
            (by simpa using Nat.lt_of_succ_lt_succ h) hall.2
          simp [fixLoop, ho, hrest]

/-- C4 (amended).  Every line outside a fenced block passes through
unchanged: when the input contains no opening-fence line at all,
`fix_code_fences` returns exactly the newline-join of the input's split
lines, with an empty change list.  (The join restores `\n` endings and
no trailing terminator, so the output is byte-identical to the input
only for inputs of that shape — see the counterexample.) -/
theorem fix_code_fences_no_fence_join (text : List Char)
    (d : Option (List Char)) (k : Bool)
    (h : (splitlines text).all (fun l => (openFenceMatch l).isNone) = true) :
    fix_code_fences text d k = some (joinNl (splitlines text), []) := by
  have := fixLoop_no_fence d k ((splitlines text).length + 1) 1 (splitlines text)
    (Nat.lt_succ_self _) h
  simp [fix_code_fences, this]

theorem fix_code_fences_no_fence_join_witness :
    ("hello\nworld".data.length = 11 ∧
      (splitlines "hello\nworld".data).all
        (fun l => (openFenceMatch l).isNone) = true) ∧
    fix_code_fences "hello\nworld".data none true =
      some (joinNl (splitlines "hello\nworld".data), []) :=
  ⟨⟨by decide, by decide⟩,
    fix_code_fences_no_fence_join "hello\nworld".data none true (by decide)⟩

/-- C4 (counterexample).  The input `"a\n"` has no fence line, yet the
output of `fix_code_fences` is `"a"`, not the input: the trailing
newline is dropped by the split/join round trip, so the output is not
byte-identical to the input. -/
theorem fix_code_fences_not_byte_identical :
    fix_code_fences "a\n".data none true = some ("a".data, []) ∧
    "a".data ≠ "a\n".data := by
  constructor
  · decide
  · decide

/- ### Theorems: the math-delimiter scan -/

/-- A matched token is one of the six delimiter tokens. -/
theorem firstTok_mem {l t : List Char} (h : firstTok l = some t) :
    t ∈ latexTokens := by
  unfold firstTok at h
  exact List.mem_of_find?_eq_some h

/-- A matched token is a prefix of the text at the match position. -/
theorem firstTok_pref {l t : List Char} (h : firstTok l = some t) :
    t.isPrefixOf l = true := by
  unfold firstTok at h
  have := List.find?_some h
  simpa using this

/-- Delimiter tokens are nonempty. -/
theorem firstTok_length_pos {l t : List Char} (h : firstTok l = some t) :
    0 < t.length := by
  have hm := firstTok_mem h
  simp only [latexTokens, List.mem_cons, List.not_mem_nil, or_false] at hm
  rcases hm with h1 | h1 | h1 | h1 | h1 | h1 <;> subst h1 <;> decide

/-- Splitting off a matched token: the token followed by the rest of the
text reassembles the text. -/
theorem tok_append_drop {s t : List Char} {i : Nat}
    (h : t.isPrefixOf (s.drop i) = true) :
    t ++ s.drop (i + t.length) = s.drop i := by
  obtain ⟨r, hr⟩ := List.isPrefixOf_iff_prefix.mp h
  rw [← List.drop_drop, ← hr, List.drop_left]

/-- Reassembling a protected span: the copied slice followed by the text
after the span is the text at the span start. -/
theorem span_append_drop (s : List Char) {i en : Nat} (h : i ≤ en) :
    (s.drop i).take (en - i) ++ s.drop en = s.drop i := by
  have h2 : s.drop en = (s.drop i).drop (en - i) := by
    rw [List.drop_drop, Nat.add_sub_cancel' h]
  rw [h2, List.take_append_drop]

/-- Splitting off the current character (Python's `s[i]` under the loop
guard `i < n`). -/
theorem drop_eq_getD_cons {s : List Char} {i : Nat} (h : i < s.length) :
    s.drop i = s[i]?.getD ' ' :: s.drop (i + 1) := by
  rw [List.drop_eq_getElem_cons h, List.getElem?_eq_getElem h]
  rfl

/-- A span produced by the span-selection loop contains the cursor. -/
theorem find_span_lt {prot : List Span} {i : Nat} {sp : Span}
    (h : find_span prot i = some sp) : sp.1 ≤ i ∧ i < sp.2 := by
  have := List.find?_some h
  simpa using this

/-- Openers have a matching closer in the `_matching` dictionary. -/
theorem matching_isSome_of_opener {t : List Char} (h : t ∈ latexOpeners) :
    (latexMatching t).isSome := by
  simp only [latexOpeners, List.mem_cons, List.not_mem_nil, or_false] at h
  rcases h with h1 | h1 | h1 | h1 <;> subst h1 <;> decide

/-- A token that is neither a pure opener nor a pure closer, among the
six delimiter tokens, is `$` or `$$`, and both are `_matching` keys. -/
theorem matching_isSome_of_ambiguous {t : List Char} (ht : t ∈ latexTokens)
    (h1 : ¬(t ∈ latexOpeners ∧ t ∉ latexClosers))
    (h2 : ¬(t ∈ latexClosers ∧ t ∉ latexOpeners)) :
    (latexMatching t).isSome := by
  simp only [latexTokens, List.mem_cons, List.not_mem_nil, or_false] at ht
  rcases ht with rfl | rfl | rfl | rfl | rfl | rfl
  · exact absurd ⟨by decide, by decide⟩ h1
  · exact absurd ⟨by decide, by decide⟩ h2
  · exact absurd ⟨by decide, by decide⟩ h1
  · exact absurd ⟨by decide, by decide⟩ h2
  · decide
  · decide

/-- The newline auto-close loop returns normally when every stacked token
is a `_matching` key. -/
theorem closeAllAtNewline_isSome :
    ∀ (stk : List (List Char × Nat × Nat)) (pos : Nat) (out : List (List Char))
      (eds : List Edit), stkToksOk stk = true →
      (closeAllAtNewline stk pos out eds).isSome := by
  intro stk
  induction stk with
  | nil => intro pos out eds _; rfl
  | cons e rest ih =>
      intro pos out eds hok
      obtain ⟨tok, a, b⟩ := e
      simp only [stkToksOk, List.all_cons, Bool.and_eq_true] at hok
      obtain ⟨w, hw⟩ := Option.isSome_iff_exists.mp hok.1
      unfold closeAllAtNewline
      rw [hw]
      exact ih pos _ _ (by simpa [stkToksOk] using hok.2)

/-- C6's general clause, and the end-of-document code path: when the text
is exhausted, every entry still on the stack is closed in LIFO order
(most recently opened first), each contributing its matching closer to
the output and exactly one `insert` edit positioned at the end of the
document. -/
theorem finalizeScan_spec (n : Nat) :
    ∀ (stk : List (List Char × Nat × Nat)) (out : List (List Char))
      (eds : List Edit), stkToksOk stk = true →
      finalizeScan n stk out eds =
        some (((out.reverse ++ stk.map (fun e => closerOfD e.1)).flatten),
          eds.reverse ++ stk.map (fun e => endDocEdit n e.1)) := by
  intro stk
  induction stk with
  | nil => intro out eds _; simp [finalizeScan]
  | cons e rest ih =>
      intro out eds hok
      obtain ⟨tok, a, b⟩ := e
      simp only [stkToksOk, List.all_cons, Bool.and_eq_true] at hok
      obtain ⟨w, hw⟩ := Option.isSome_iff_exists.mp hok.1
      unfold finalizeScan
      rw [hw]
      dsimp only
      rw [ih _ _ (by simpa [stkToksOk] using hok.2)]
      simp [closerOfD, endDocEdit, hw]

/-- One scan iteration always returns normally when every stacked token
is a `_matching` key, every token it pushes is again a `_matching` key,
and the cursor strictly advances: the dictionary lookups of
`_scan_and_fix` cannot fail and the loop cannot stall. -/
theorem scanStep_total (s : List Char) (prot : List Span) (cn : Bool)
    (st : ScanState) (hok : stkToksOk st.stk = true) :
    ∃ st2, scanStep s prot cn st = some st2 ∧ stkToksOk st2.stk = true ∧
      st.i < st2.i := by
  obtain ⟨i, out, eds, stk⟩ := st
  dsimp only at hok ⊢
  cases stk with
  | nil =>
      cases hfs : find_span prot i with
      | some sp =>
          obtain ⟨a0, en⟩ := sp
          exact ⟨⟨en, (s.drop i).take (en - i) :: out, eds, []⟩,
            by simp [scanStep, classify, hfs], rfl, (find_span_lt hfs).2⟩
      | none =>
          cases hft : firstTok (s.drop i) with
          | none =>
              exact ⟨⟨i + 1, [s.getD i ' '] :: out, eds, []⟩,
                by simp [scanStep, classify, hfs, hft], rfl, Nat.lt_succ_self _⟩
          | some t =>
              have hpos := firstTok_length_pos hft
              by_cases hesc : count_trailing_backslashes (s.take i) % 2 = 1
              · exact ⟨⟨i + t.length, t :: out, eds, []⟩,
                  by simp [scanStep, classify, hfs, hft, hesc], rfl,
                  by dsimp only; omega⟩
              · by_cases hcur : t = ['$'] ∧ looks_like_currency s i = true
                · exact ⟨⟨i + 1, ['$'] :: out, eds, []⟩,
                    by simp [scanStep, classify, hfs, hft, hesc, hcur], rfl,
                    Nat.lt_succ_self _⟩
                · by_cases hop : t ∈ latexOpeners ∧ t ∉ latexClosers
                  · exact ⟨⟨i + t.length, t :: out, eds, [(t, out.length, i)]⟩,
                      by simp [scanStep, classify, hfs, hft, hesc, hcur, hop],
                      by simp [stkToksOk, matching_isSome_of_opener hop.1],
                      by dsimp only; omega⟩
                  · by_cases hcl : t ∈ latexClosers ∧ t ∉ latexOpeners
                    · exact ⟨⟨i + t.length, out,
                          ⟨.delete, i, t, [],
                            "Stray closer ".data ++ t ++ " removed".data⟩ :: eds,
                          []⟩,
                        by simp [scanStep, classify, hfs, hft, hesc, hcur, hop, hcl],
                        rfl, by dsimp only; omega⟩
                    · have hms := matching_isSome_of_ambiguous (firstTok_mem hft)
                        hop hcl
                      exact ⟨⟨i + t.length, t :: out, eds, [(t, out.length, i)]⟩,
                        by simp [scanStep, classify, hfs, hft, hesc, hcur, hop, hcl],
                        by simp [stkToksOk, hms], by dsimp only; omega⟩
  | cons e rest =>
      obtain ⟨openTok, a, b⟩ := e
      simp only [stkToksOk, List.all_cons, Bool.and_eq_true] at hok
      obtain ⟨w, hw⟩ := Option.isSome_iff_exists.mp hok.1
      have hrest : stkToksOk rest = true := by simpa [stkToksOk] using hok.2
      cases hfs : find_span prot i with
      | some sp =>
          obtain ⟨a0, en⟩ := sp
          exact ⟨⟨en, (s.drop i).take (en - i) :: out, eds, (openTok, a, b) :: rest⟩,
            by simp [scanStep, classify, hfs],
            by simp [stkToksOk, hok.1, hok.2], (find_span_lt hfs).2⟩
      | none =>
          by_cases hnl : s[i]? = some '\n' ∧ cn = true
          · obtain ⟨p, hp⟩ := Option.isSome_iff_exists.mp
              (closeAllAtNewline_isSome ((openTok, a, b) :: rest) i out eds
                (by simp [stkToksOk, hok.1, hok.2]))
            exact ⟨⟨i + 1, ['\n'] :: p.1, p.2, []⟩,
              by simp [scanStep, classify, hfs, hnl, hp], rfl, Nat.lt_succ_self _⟩
          · cases hft : firstTok (s.drop i) with
            | none =>
                exact ⟨⟨i + 1, [s.getD i ' '] :: out, eds, (openTok, a, b) :: rest⟩,
                  by simp [scanStep, classify, hfs, hnl, hft],
                  by simp [stkToksOk, hok.1, hok.2], Nat.lt_succ_self _⟩
            | some t =>
                have hpos := firstTok_length_pos hft
                by_cases hesc : count_trailing_backslashes (s.take i) % 2 = 1
                · exact ⟨⟨i + t.length, t :: out, eds, (openTok, a, b) :: rest⟩,
                    by simp [scanStep, classify, hfs, hnl, hft, hesc],
                    by simp [stkToksOk, hok.1, hok.2], by dsimp only; omega⟩
                · by_cases hop : t ∈ latexOpeners ∧ t ∉ latexClosers
                  · exact ⟨⟨i + t.length, t :: w :: out,
                        insertCloserEdit i w openTok
                          "before opening a new math block".data :: eds,
                        (t, (w :: out).length, i) :: rest⟩,
                      by simp [scanStep, classify, hfs, hnl, hft, hesc, hop, hw],
                      by simp [stkToksOk, matching_isSome_of_opener hop.1,
                        hok.2],
                      by dsimp only; omega⟩
                  · by_cases hcl : t ∈ latexClosers ∧ t ∉ latexOpeners
                    · by_cases htw : t = w
                      · subst htw
                        exact ⟨⟨i + t.length, t :: out, eds, rest⟩,
                          by simp [scanStep, classify, hfs, hnl, hft, hesc, hop,
                            hcl, hw],
                          hrest, by dsimp only; omega⟩
                      · exact ⟨⟨i + t.length, w :: out,
                            ⟨.replace, i, t, w,
                              "Mismatched closer: ".data ++ t ++ " -> ".data ++ w ++
                                " for opener ".data ++ openTok⟩ :: eds,
                            rest⟩,
                          by simp [scanStep, classify, hfs, hnl, hft, hesc, hop,
                            hcl, hw, htw],
                          hrest, by dsimp only; omega⟩
                    · have hms := matching_isSome_of_ambiguous (firstTok_mem hft)
                        hop hcl
                      by_cases htt : openTok = t
                      · have hcls : classify s prot cn i
                            (openTok :: rest.map (fun e => e.1)) =
                            .closerTok t := by
                          simp [classify, hfs, hnl, hft, hesc, hop, hcl, htt]
                        have hw2 : latexMatching openTok = some w := hw
                        by_cases htw : t = w
                        · exact ⟨⟨i + t.length, t :: out, eds, rest⟩,
                            by simp [scanStep, hcls, hw2, htw],
                            hrest, by dsimp only; omega⟩
                        · exact ⟨⟨i + t.length, w :: out,
                              ⟨.replace, i, t, w,
                                "Mismatched closer: ".data ++ t ++ " -> ".data ++ w ++
                                  " for opener ".data ++ openTok⟩ :: eds,
                              rest⟩,
                            by simp [scanStep, hcls, hw2, htw],
                            hrest, by dsimp only; omega⟩
                      · exact ⟨⟨i + t.length, t :: w :: out,
                            insertCloserEdit i w openTok
                              "before opening a new math block".data :: eds,
                            (t, (w :: out).length, i) :: rest⟩,
                          by simp [scanStep, classify, hfs, hnl, hft, hesc, hop,
                            hcl, htt, hw],
                          by simp [stkToksOk, hms, hok.2], by dsimp only; omega⟩

/-- The scan loop returns normally given one unit of fuel per remaining
character (the cursor strictly advances each iteration). -/
theorem scanAux_isSome (s : List Char) (prot : List Span) (cn : Bool) :
    ∀ (fuel : Nat) (st : ScanState), s.length - st.i < fuel →
      stkToksOk st.stk = true → (scanAux s prot cn fuel st).isSome := by
  intro fuel
  induction fuel with
  | zero => intro st h _; omega
  | succ f ih =>
      intro st h hok
      unfold scanAux
      by_cases hlt : st.i < s.length
      · obtain ⟨st2, hstep, hok2, hadv⟩ := scanStep_total s prot cn st hok
        rw [if_pos hlt, hstep]
        exact ih st2 (by omega) hok2
      · rw [if_neg hlt, finalizeScan_spec s.length st.stk st.out st.eds hok]
        rfl

/-- `fix_latex_delimiters` always returns normally. -/
theorem fix_latex_delimiters_isSome (text : List Char) (cn : Bool) :
    (fix_latex_delimiters text cn).isSome := by
  have h := scanAux_isSome text (protected_spans text) cn (text.length + 1)
    ⟨0, [], [], []⟩ (by omega) rfl
  obtain ⟨p, hp⟩ := Option.isSome_iff_exists.mp h
  obtain ⟨fixed, edits⟩ := p
  simp [fix_latex_delimiters, scan_and_fix, hp]

/-- C9.  For every input text and every combination of the documented
option arguments, the four public entry points return normally: in the
embedding, Python operations that could raise (list indexing, the
`_matching` dictionary lookups) return `Option`, loops are fuel-limited
(`none` on exhaustion), and this theorem shows that no entry point ever
produces `none` — the indexings are guarded, the stacked tokens are
always dictionary keys, and every loop terminates within its fuel. -/
theorem public_entry_points_total (text : List Char) (d : Option (List Char))
    (k cn : Bool) :
    (validate_code_fences text).isSome ∧ (fix_code_fences text d k).isSome ∧
    (ensure_fenced_code text d k).isSome ∧ (fix_latex_delimiters text cn).isSome :=
  ⟨validate_code_fences_isSome text, fix_code_fences_isSome text d k,
   ensure_fenced_code_isSome text d k, fix_latex_delimiters_isSome text cn⟩

/-- On input accepted by the balance checker, the scan loop copies the
remaining text verbatim and produces no further edit: every branch that
would record an edit is exactly a branch on which the checker returns
`false`. -/
theorem scanAux_of_balanced (s : List Char) (prot : List Span) (cn : Bool) :
    ∀ (fuel : Nat) (st : ScanState),
      s.length - st.i < fuel →
      balancedAux s prot cn fuel st.i (st.stk.map (fun e => e.1)) = true →
      scanAux s prot cn fuel st =
        some (st.out.reverse.flatten ++ s.drop st.i, st.eds.reverse) := by
  intro fuel
  induction fuel with
  | zero => intro st h _; omega
  | succ f ih =>
      intro st hfu hbal
      obtain ⟨i, out, eds, stk⟩ := st
      dsimp only at hfu hbal ⊢
      by_cases hlt : i < s.length
      case neg =>
        unfold balancedAux at hbal
        rw [if_neg hlt] at hbal
        have hstk : stk = [] := by
          cases stk
          · rfl
          · simp at hbal
        subst hstk
        unfold scanAux
        rw [if_neg hlt]
        simp [finalizeScan, List.drop_eq_nil_of_le (Nat.le_of_not_lt hlt)]
      case pos =>
        unfold balancedAux at hbal
        rw [if_pos hlt] at hbal
        unfold scanAux
        rw [if_pos hlt]
        cases stk with
        | nil =>
            cases hfs : find_span prot i with
            | some sp =>
                obtain ⟨a0, en⟩ := sp
                have hen := (find_span_lt hfs).2
                have hcls : classify s prot cn i ([] : List (List Char)) =
                    .protJump en := by simp [classify, hfs]
                rw [List.map_nil, hcls] at hbal
                dsimp only at hbal
                have hstep : scanStep s prot cn ⟨i, out, eds, []⟩ =
                    some ⟨en, (s.drop i).take (en - i) :: out, eds, []⟩ := by
                  simp [scanStep, hcls]
                rw [hstep]; dsimp only; rw [ih ⟨en, (s.drop i).take (en - i) :: out, eds, []⟩
                  (by dsimp only; omega) (by simpa using hbal)]
                simp [List.flatten_append, List.append_assoc,
                  span_append_drop s (Nat.le_of_lt hen)]
            | none =>
                cases hft : firstTok (s.drop i) with
                | none =>
                    have hcls : classify s prot cn i ([] : List (List Char)) =
                        .plainChar := by simp [classify, hfs, hft]
                    rw [List.map_nil, hcls] at hbal
                    dsimp only at hbal
                    have hstep : scanStep s prot cn ⟨i, out, eds, []⟩ =
                        some ⟨i + 1, [s.getD i ' '] :: out, eds, []⟩ := by
                      simp [scanStep, hcls]
                    rw [hstep]; dsimp only; rw [ih ⟨i + 1, [s.getD i ' '] :: out, eds, []⟩
                      (by dsimp only; omega) (by simpa using hbal)]
                    simp [List.flatten_append, List.append_assoc]
                    rw [← drop_eq_getD_cons hlt]
                | some t =>
                    have hpos := firstTok_length_pos hft
                    have hpre := firstTok_pref hft
                    by_cases hesc : count_trailing_backslashes (s.take i) % 2 = 1
                    · have hcls : classify s prot cn i ([] : List (List Char)) =
                          .escapedTok t := by simp [classify, hfs, hft, hesc]
                      rw [List.map_nil, hcls] at hbal
                      dsimp only at hbal
                      have hstep : scanStep s prot cn ⟨i, out, eds, []⟩ =
                          some ⟨i + t.length, t :: out, eds, []⟩ := by
                        simp [scanStep, hcls]
                      rw [hstep]; dsimp only; rw [ih ⟨i + t.length, t :: out, eds, []⟩
                        (by dsimp only; omega) (by simpa using hbal)]
                      simp [List.flatten_append, List.append_assoc]
                      rw [tok_append_drop hpre]
                    · by_cases hcur : t = ['$'] ∧ looks_like_currency s i = true
                      · have hcls : classify s prot cn i ([] : List (List Char)) =
                            .currencyTok := by simp [classify, hfs, hft, hesc, hcur]
                        rw [List.map_nil, hcls] at hbal
                        dsimp only at hbal
                        have hstep : scanStep s prot cn ⟨i, out, eds, []⟩ =
                            some ⟨i + 1, ['$'] :: out, eds, []⟩ := by
                          simp [scanStep, hcls]
                        rw [hstep]; dsimp only; rw [ih ⟨i + 1, ['$'] :: out, eds, []⟩
                          (by dsimp only; omega) (by simpa using hbal)]
                        have hpre2 : (['$'] : List Char).isPrefixOf (s.drop i) = true := by
                          rw [← hcur.1]; exact hpre
                        have := tok_append_drop (s := s) (i := i) hpre2
                        simp only [List.length_cons, List.length_nil] at this
                        simp [List.flatten_append, List.append_assoc]
                        rw [← this]
                        simp
                      · by_cases hop : t ∈ latexOpeners ∧ t ∉ latexClosers
                        · have hcls : classify s prot cn i ([] : List (List Char)) =
                              .openerTok t := by
                            simp [classify, hfs, hft, hesc, hcur, hop]
                          rw [List.map_nil, hcls] at hbal
                          dsimp only at hbal
                          have hstep : scanStep s prot cn ⟨i, out, eds, []⟩ =
                              some ⟨i + t.length, t :: out, eds, [(t, out.length, i)]⟩ := by
                            simp [scanStep, hcls]
                          rw [hstep]; dsimp only; rw [ih ⟨i + t.length, t :: out, eds, [(t, out.length, i)]⟩
                            (by dsimp only; omega) (by simpa using hbal)]
                          simp [List.flatten_append, List.append_assoc]
                          rw [tok_append_drop hpre]
                        · by_cases hcl : t ∈ latexClosers ∧ t ∉ latexOpeners
                          · have hcls : classify s prot cn i ([] : List (List Char)) =
                                .closerTok t := by
                              simp [classify, hfs, hft, hesc, hcur, hop, hcl]
                            rw [List.map_nil, hcls] at hbal
                            dsimp only at hbal
                            exact absurd hbal (by simp)
                          · have hcls : classify s prot cn i ([] : List (List Char)) =
                                .openerTok t := by
                              simp [classify, hfs, hft, hesc, hcur, hop, hcl]
                            rw [List.map_nil, hcls] at hbal
                            dsimp only at hbal
                            have hstep : scanStep s prot cn ⟨i, out, eds, []⟩ =
                                some ⟨i + t.length, t :: out, eds, [(t, out.length, i)]⟩ := by
                              simp [scanStep, hcls]
                            rw [hstep]; dsimp only; rw [ih ⟨i + t.length, t :: out, eds, [(t, out.length, i)]⟩
                              (by dsimp only; omega) (by simpa using hbal)]
                            simp [List.flatten_append, List.append_assoc]
                            rw [tok_append_drop hpre]
        | cons e rest =>
            obtain ⟨topTok, a, b⟩ := e
            cases hfs : find_span prot i with
            | some sp =>
                obtain ⟨a0, en⟩ := sp
                have hen := (find_span_lt hfs).2
                have hcls : classify s prot cn i (topTok :: rest.map (fun e => e.1)) =
                    .protJump en := by simp [classify, hfs]
                rw [List.map_cons, hcls] at hbal
                dsimp only at hbal
                have hstep : scanStep s prot cn ⟨i, out, eds, (topTok, a, b) :: rest⟩ =
                    some ⟨en, (s.drop i).take (en - i) :: out, eds,
                      (topTok, a, b) :: rest⟩ := by
                  simp [scanStep, hcls]
                rw [hstep]; dsimp only; rw [ih ⟨en, (s.drop i).take (en - i) :: out, eds,
                    (topTok, a, b) :: rest⟩
                  (by dsimp only; omega) (by simpa using hbal)]
                simp [List.flatten_append, List.append_assoc,
                  span_append_drop s (Nat.le_of_lt hen)]
            | none =>
                by_cases hnl : s[i]? = some '\n' ∧ cn = true
                · have hcls : classify s prot cn i (topTok :: rest.map (fun e => e.1)) =
                      .newlineClose := by simp [classify, hfs, hnl]
                  rw [List.map_cons, hcls] at hbal
                  dsimp only at hbal
                  exact absurd hbal (by simp)
                · cases hft : firstTok (s.drop i) with
                  | none =>
                      have hcls : classify s prot cn i
                          (topTok :: rest.map (fun e => e.1)) = .plainChar := by
                        simp [classify, hfs, hnl, hft]
                      rw [List.map_cons, hcls] at hbal
                      dsimp only at hbal
                      have hstep : scanStep s prot cn
                          ⟨i, out, eds, (topTok, a, b) :: rest⟩ =
                          some ⟨i + 1, [s.getD i ' '] :: out, eds,
                            (topTok, a, b) :: rest⟩ := by
                        simp [scanStep, hcls]
                      rw [hstep]; dsimp only; rw [ih ⟨i + 1, [s.getD i ' '] :: out, eds,
                          (topTok, a, b) :: rest⟩
                        (by dsimp only; omega) (by simpa using hbal)]
                      simp [List.flatten_append, List.append_assoc]
                      rw [← drop_eq_getD_cons hlt]
                  | some t =>
                      have hpos := firstTok_length_pos hft
                      have hpre := firstTok_pref hft
                      by_cases hesc : count_trailing_backslashes (s.take i) % 2 = 1
                      · have hcls : classify s prot cn i
                            (topTok :: rest.map (fun e => e.1)) = .escapedTok t := by
                          simp [classify, hfs, hnl, hft, hesc]
                        rw [List.map_cons, hcls] at hbal
                        dsimp only at hbal
                        have hstep : scanStep s prot cn
                            ⟨i, out, eds, (topTok, a, b) :: rest⟩ =
                            some ⟨i + t.length, t :: out, eds,
                              (topTok, a, b) :: rest⟩ := by
                          simp [scanStep, hcls]
                        rw [hstep]; dsimp only; rw [ih ⟨i + t.length, t :: out, eds,
                            (topTok, a, b) :: rest⟩
                          (by dsimp only; omega) (by simpa using hbal)]
                        simp [List.flatten_append, List.append_assoc]
                        rw [tok_append_drop hpre]
                      · by_cases hop : t ∈ latexOpeners ∧ t ∉ latexClosers
                        · have hcls : classify s prot cn i
                              (topTok :: rest.map (fun e => e.1)) = .openerTok t := by
                            simp [classify, hfs, hnl, hft, hesc, hop]
                          rw [List.map_cons, hcls] at hbal
                          dsimp only at hbal
                          exact absurd hbal (by simp)
                        · by_cases hcl : t ∈ latexClosers ∧ t ∉ latexOpeners
                          · have hcls : classify s prot cn i
                                (topTok :: rest.map (fun e => e.1)) = .closerTok t := by
                              simp [classify, hfs, hnl, hft, hesc, hop, hcl]
                            rw [List.map_cons, hcls] at hbal
                            dsimp only at hbal
                            cases hw : latexMatching topTok with
                            | none => rw [hw] at hbal; dsimp only at hbal; exact absurd hbal (by simp)
                            | some w =>
                                rw [hw] at hbal; dsimp only at hbal
                                by_cases htw : t = w
                                · rw [if_pos htw] at hbal
                                  have hstep : scanStep s prot cn
                                      ⟨i, out, eds, (topTok, a, b) :: rest⟩ =
                                      some ⟨i + t.length, t :: out, eds, rest⟩ := by
                                    simp [scanStep, hcls, hw, htw]
                                  rw [hstep]; dsimp only; rw [ih ⟨i + t.length, t :: out, eds, rest⟩
                                    (by dsimp only; omega) (by simpa using hbal)]
                                  simp [List.flatten_append, List.append_assoc]
                                  rw [tok_append_drop hpre]
                                · rw [if_neg htw] at hbal
                                  exact absurd hbal (by simp)
                          · have hms := matching_isSome_of_ambiguous
                              (firstTok_mem hft) hop hcl
                            by_cases htt : topTok = t
                            · have hcls : classify s prot cn i
                                  (topTok :: rest.map (fun e => e.1)) =
                                  .closerTok t := by
                                simp [classify, hfs, hnl, hft, hesc, hop, hcl, htt]
                              rw [List.map_cons, hcls] at hbal
                              dsimp only at hbal
                              cases hw : latexMatching topTok with
                              | none => rw [hw] at hbal; dsimp only at hbal; exact absurd hbal (by simp)
                              | some w =>
                                  rw [hw] at hbal; dsimp only at hbal
                                  by_cases htw : t = w
                                  · rw [if_pos htw] at hbal
                                    have hstep : scanStep s prot cn
                                        ⟨i, out, eds, (topTok, a, b) :: rest⟩ =
                                        some ⟨i + t.length, t :: out, eds, rest⟩ := by
                                      simp [scanStep, hcls, hw, htw]
                                    rw [hstep]; dsimp only; rw [ih ⟨i + t.length, t :: out, eds, rest⟩
                                      (by dsimp only; omega) (by simpa using hbal)]
                                    simp [List.flatten_append, List.append_assoc]
                                    rw [tok_append_drop hpre]
                                  · rw [if_neg htw] at hbal
                                    exact absurd hbal (by simp)
                            · have hcls : classify s prot cn i
                                  (topTok :: rest.map (fun e => e.1)) =
                                  .openerTok t := by
                                simp [classify, hfs, hnl, hft, hesc, hop, hcl, htt]
                              rw [List.map_cons, hcls] at hbal
                              dsimp only at hbal
                              exact absurd hbal (by simp)

/-- C2 (amended).  For every text with no unbalanced math delimiters
outside protected spans (the balance checker accepts it) and no
align-family environment (the align normalizer leaves it unchanged),
`fix_latex_delimiters` returns the input unchanged with an empty edit
list. -/
theorem balanced_input_unchanged (s : List Char) (cn : Bool)
    (hbal : balancedOutsideProtected s cn = true)
    (halign : fix_align_environments s = s) :
    fix_latex_delimiters s cn = some (s, []) := by
  have h := scanAux_of_balanced s (protected_spans s) cn (s.length + 1)
    ⟨0, [], [], []⟩ (by omega)
    (by simpa [balancedOutsideProtected] using hbal)
  simp only [List.reverse_nil, List.flatten_nil, List.nil_append,
    List.drop_zero] at h
  simp [fix_latex_delimiters, scan_and_fix, h, halign]

theorem balanced_input_unchanged_witness :
    (balancedOutsideProtected "a $x$ b".data true = true ∧
      fix_align_environments "a $x$ b".data = "a $x$ b".data) ∧
    fix_latex_delimiters "a $x$ b".data true = some ("a $x$ b".data, []) :=
  ⟨⟨by decide, by decide⟩,
    balanced_input_unchanged "a $x$ b".data true (by decide) (by decide)⟩

/-- C2 (counterexample).  The claim fails as stated: the input
`\begin{aligned}x\end{aligned}` contains no math delimiter at all — so
it has no unbalanced delimiter outside protected spans, and the balance
checker accepts it — yet `fix_latex_delimiters` (which runs the
align-environment normalizer after the delimiter scan) rewrites it, so
the returned text differs from the input even though the edit list is
empty. -/
theorem align_rewrite_defeats_idempotence :
    balancedOutsideProtected "\\begin{aligned}x\\end{aligned}".data true = true ∧
    fix_latex_delimiters "\\begin{aligned}x\\end{aligned}".data true =
      some ("$$\n\\begin{aligned}\nx\n\\end{aligned}\n$$".data, []) ∧
    ("$$\n\\begin{aligned}\nx\n\\end{aligned}\n$$".data : List Char) ≠
      "\\begin{aligned}x\\end{aligned}".data :=
  ⟨by decide, by decide, by decide⟩

/-- C3 (amended).  The protected spans of the math-delimiter pass cover
triple-backtick fenced blocks only (the `_code_fence` pattern is
backtick-only), and the scanner copies any protected span verbatim —
no edit, cursor jumped to the span end.  Concretely, a dollar delimiter
inside a backtick fence is left untouched with an empty edit list. -/
theorem protected_span_copied_verbatim :
    (∀ (s : List Char) (prot : List Span) (cn : Bool) (st : ScanState)
      (a en : Nat),
      find_span prot st.i = some (a, en) →
      scanStep s prot cn st =
        some ⟨en, (s.drop st.i).take (en - st.i) :: st.out, st.eds, st.stk⟩) ∧
    fix_latex_delimiters "```\n$x\n```".data true =
      some ("```\n$x\n```".data, []) := by
  constructor
  · intro s prot cn st a en hfs
    simp [scanStep, classify, hfs]
  · decide

theorem protected_span_copied_verbatim_witness :
    find_span (protected_spans "```a```".data) 0 = some (0, 7) ∧
    scanStep "```a```".data (protected_spans "```a```".data) true
        ⟨0, [], [], []⟩ =
      some ⟨7, ["```a```".data], [], []⟩ :=
  ⟨by decide,
    protected_span_copied_verbatim.1 "```a```".data
      (protected_spans "```a```".data) true ⟨0, [], [], []⟩ 0 7 (by decide)⟩

/-- C3 (counterexample).  The claim fails for tilde fences: delimiter
tokens inside a `~~~` fenced block are not protected — the scan edits
the block (here auto-closing the `$` at the newline), so the block is
not copied verbatim and the edit list is not empty. -/
theorem tilde_fence_not_protected :
    fix_latex_delimiters "~~~\n$x\n~~~".data true =
      some ("~~~\n$x$\n~~~".data,
        [⟨.insert, 6, [], "$".data,
          "Inserted missing closer $ for $ at end of line".data⟩]) ∧
    ("~~~\n$x$\n~~~".data : List Char) ≠ "~~~\n$x\n~~~".data :=
  ⟨by decide, by decide⟩

/-- C5.  A mismatched closer is replaced by the required closer of the
stack's top entry, which is popped: concretely on `\(x+1\]`, and in
general for any state whose classification is an unescaped closer token
different from the required closer. -/
theorem mismatched_closer_replaced :
    (fix_latex_delimiters "\\(x+1\\]".data true =
      some ("\\(x+1\\)".data,
        [⟨.replace, 5, "\\]".data, "\\)".data,
          "Mismatched closer: \\] -> \\) for opener \\(".data⟩])) ∧
    (∀ (s : List Char) (prot : List Span) (cn : Bool) (st : ScanState)
      (t openTok w : List Char) (a b : Nat)
      (rest : List (List Char × Nat × Nat)),
      classify s prot cn st.i (st.stk.map (fun e => e.1)) = .closerTok t →
      st.stk = (openTok, a, b) :: rest →
      latexMatching openTok = some w → t ≠ w →
      scanStep s prot cn st =
        some ⟨st.i + t.length, w :: st.out,
          ⟨.replace, st.i, t, w,
            "Mismatched closer: ".data ++ t ++ " -> ".data ++ w ++
              " for opener ".data ++ openTok⟩ :: st.eds, rest⟩) := by
  constructor
  · decide
  · intro s prot cn st t openTok w a b rest hc hstk hw htw
    rw [hstk] at hc
    simp only [List.map_cons] at hc
    simp [scanStep, hstk, hc, hw, htw]

theorem mismatched_closer_replaced_witness :
    scanStep "\\(x+1\\]".data [] true
        ⟨5, [['1'], ['+'], ['x'], "\\(".data], [], [("\\(".data, 0, 0)]⟩ =
      some ⟨7, "\\)".data :: [['1'], ['+'], ['x'], "\\(".data],
        [⟨.replace, 5, "\\]".data, "\\)".data,
          "Mismatched closer: \\] -> \\) for opener \\(".data⟩], []⟩ :=
  mismatched_closer_replaced.2 "\\(x+1\\]".data [] true
    ⟨5, [['1'], ['+'], ['x'], "\\(".data], [], [("\\(".data, 0, 0)]⟩
    "\\]".data "\\(".data "\\)".data 0 0 [] (by decide) rfl (by decide)
    (by decide)

/-- C6.  Every math entry still open at end of document is closed in
LIFO order (most recently opened first), each producing one `insert`
edit at the end-of-document position: concretely on `Equation: $x+1`,
and in general for the end-of-text loop on any stack of dictionary-key
tokens. -/
theorem open_entries_closed_at_end :
    (fix_latex_delimiters "Equation: $x+1".data true =
      some ("Equation: $x+1$".data,
        [⟨.insert, 14, [], "$".data,
          "Inserted missing closer $ at end of document".data⟩])) ∧
    (∀ (n : Nat) (stk : List (List Char × Nat × Nat)) (out : List (List Char))
      (eds : List Edit), stkToksOk stk = true →
      finalizeScan n stk out eds =
        some ((out.reverse ++ stk.map (fun e => closerOfD e.1)).flatten,
          eds.reverse ++ stk.map (fun e => endDocEdit n e.1))) := by
  exact ⟨by decide, finalizeScan_spec⟩

theorem open_entries_closed_at_end_witness :
    stkToksOk [("$".data, 0, 0), ("\\[".data, 0, 0)] = true ∧
    finalizeScan 3 [("$".data, 0, 0), ("\\[".data, 0, 0)] [] [] =
      some ("$".data ++ "\\]".data,
        [endDocEdit 3 "$".data, endDocEdit 3 "\\[".data]) := by
  refine ⟨by decide, ?_⟩
  have h := open_entries_closed_at_end.2 3
    [("$".data, 0, 0), ("\\[".data, 0, 0)] [] [] (by decide)
  rw [h]
  decide

/-- C7.  A bare `$` with an empty stack immediately followed by a
currency-shaped numeral not followed by another `$` is emitted verbatim,
with no stack interaction and no edit: concretely on
`The price is $12.50 today.`, and in general for any scan state
satisfying the currency-heuristic conditions. -/
theorem currency_dollar_left_verbatim :
    (fix_latex_delimiters "The price is $12.50 today.".data true =
      some ("The price is $12.50 today.".data, [])) ∧
    (∀ (s : List Char) (prot : List Span) (cn : Bool) (st : ScanState),
      find_span prot st.i = none →
      firstTok (s.drop st.i) = some ['$'] →
      count_trailing_backslashes (s.take st.i) % 2 ≠ 1 →
      st.stk = [] →
      looks_like_currency s st.i = true →
      scanStep s prot cn st = some ⟨st.i + 1, ['$'] :: st.out, st.eds, []⟩) := by
  constructor
  · decide
  · intro s prot cn st hfs hft hesc hstk hcur
    have hcls : classify s prot cn st.i ([] : List (List Char)) =
        .currencyTok := by
      simp [classify, hfs, hft, hesc, hcur]
    simp [scanStep, hstk, hcls]

theorem currency_dollar_left_verbatim_witness :
    (find_span ([] : List Span) 0 = none ∧
      firstTok "$5 x".data = some ['$'] ∧
      looks_like_currency "$5 x".data 0 = true) ∧
    scanStep "$5 x".data [] true ⟨0, [], [], []⟩ =
      some ⟨1, [['$']], [], []⟩ :=
  ⟨⟨by decide, by decide, by decide⟩,
    currency_dollar_left_verbatim.2 "$5 x".data [] true ⟨0, [], [], []⟩
      (by decide) (by decide) (by decide) rfl (by decide)⟩

/-- C8.  The open-math stack never holds more than one entry: each scan
step maps a stack of depth at most 1 to a stack of depth at most 1 — an
opener arriving while an entry is open first pops and synthetically
closes it, so a genuinely nested push never occurs — and the scan
starts from the empty stack. -/
theorem math_stack_never_nests (s : List Char) (prot : List Span) (cn : Bool)
    (st st2 : ScanState) (hstep : scanStep s prot cn st = some st2)
    (hd : st.stk.length ≤ 1) : st2.stk.length ≤ 1 := by
  unfold scanStep at hstep
  cases hc : classify s prot cn st.i (st.stk.map (fun e => e.1)) with
  | protJump en =>
      rw [hc] at hstep
      dsimp only at hstep
      injection hstep with h
      rw [← h]
      exact hd
  | newlineClose =>
      rw [hc] at hstep
      dsimp only at hstep
      cases hca : closeAllAtNewline st.stk st.i st.out st.eds with
      | none => rw [hca] at hstep; exact absurd hstep (by simp)
      | some p =>
          rw [hca] at hstep
          obtain ⟨o, e⟩ := p
          injection hstep with h
          rw [← h]
          simp
  | plainChar =>
      rw [hc] at hstep
      dsimp only at hstep
      injection hstep with h
      rw [← h]
      exact hd
  | escapedTok t =>
      rw [hc] at hstep
      dsimp only at hstep
      injection hstep with h
      rw [← h]
      exact hd
  | currencyTok =>
      rw [hc] at hstep
      dsimp only at hstep
      injection hstep with h
      rw [← h]
      exact hd
  | openerTok t =>
      rw [hc] at hstep
      dsimp only at hstep
      cases hstk : st.stk with
      | nil =>
          rw [hstk] at hstep
          dsimp only at hstep
          injection hstep with h
          rw [← h]
          simp
      | cons e rest =>
          obtain ⟨openTok, a, b⟩ := e
          rw [hstk] at hstep
          dsimp only at hstep
          cases hw : latexMatching openTok with
          | none => rw [hw] at hstep; exact absurd hstep (by simp)
          | some w =>
              rw [hw] at hstep
              dsimp only at hstep
              injection hstep with h
              rw [← h]
              have hlen : st.stk.length = rest.length + 1 := by rw [hstk]; rfl
              dsimp only
              simp only [List.length_cons]
              omega
  | closerTok t =>
      rw [hc] at hstep
      dsimp only at hstep
      cases hstk : st.stk with
      | nil =>
          rw [hstk] at hstep
          dsimp only at hstep
          injection hstep with h
          rw [← h]
          simp
      | cons e rest =>
          obtain ⟨openTok, a, b⟩ := e
          rw [hstk] at hstep
          dsimp only at hstep
          cases hw : latexMatching openTok with
          | none => rw [hw] at hstep; exact absurd hstep (by simp)
          | some w =>
              rw [hw] at hstep
              dsimp only at hstep
              have hlen : rest.length + 1 ≤ 1 := by
                rw [hstk] at hd; simpa using hd
              split at hstep <;> (injection hstep with h; rw [← h]; dsimp only; omega)

theorem math_stack_never_nests_witness :
    scanStep "$x".data [] true ⟨0, [], [], []⟩ =
      some ⟨1, [['$']], [], [(['$'], 0, 0)]⟩ ∧
    (⟨1, [['$']], [], [(['$'], 0, 0)]⟩ : ScanState).stk.length ≤ 1 :=
  ⟨by decide,
    math_stack_never_nests "$x".data [] true ⟨0, [], [], []⟩
      ⟨1, [['$']], [], [(['$'], 0, 0)]⟩ (by decide) (by decide)⟩
